import Mathlib

/-!
# nvidia-node-tagger: the GPU inventory and its flattened annotation map

A shallow embedding of `pkg/gpu/gpu.go` and the properties of it that the
specification states.

* A Go `map[string]T` is a list of entries with pairwise distinct keys
  (`GoMap`); `m[k] = v` is `GoMap.set`, a lookup is `GoMap.get?`.
* Go leaves the order of `range` over a map open.  A `RangeOrder` is one choice
  of that order for every map; the functions that range over a map take one, and
  the theorems hold for all of them.  A nested mapping handed to `flatten` lists
  its entries in the order the loop visits them, and `Reorder` relates two such
  listings of one mapping.
* `uint64` values are natural numbers; `+=` on them is addition modulo `2 ^ 64`.
* A Go string is a text of Unicode characters.
* The calls into the NVML library are answered by an `Nvml` value, and the
  functions that call the library return, next to their result, the list of the
  calls they made.
* The packages `encoding/json`, `fmt` and `strconv` are not part of the
  repository: `jsonTree`, `float64OfNat`, `shortest`, `formatFloat` and `sprintV`
  state what they do on the values `ToFlatJson` passes to them.
-/

namespace Gpu

/-! ## Go maps -/

/-- A Go `map[string]β`: its entries, keys pairwise distinct. -/
abbrev GoMap (β : Type) := List (String × β)

/-- The assignment `m[k] = v`: replaces the value of an existing key, adds the
entry otherwise. -/
def GoMap.set {β : Type} : GoMap β → String → β → GoMap β
  | [], k, v => [(k, v)]
  | (k', v') :: rest, k, v =>
    if k' = k then (k, v) :: rest else (k', v') :: GoMap.set rest k v

/-- The lookup `m[k]`, `none` when the key is absent. -/
def GoMap.get? {β : Type} : GoMap β → String → Option β
  | [], _ => none
  | (k', v') :: rest, k => if k' = k then some v' else GoMap.get? rest k

/-- The keys of a map. -/
def GoMap.keys {β : Type} (m : GoMap β) : List String := m.map Prod.fst

/-- The entries written one after the other into `o`, the body
`o[k] = v` of a loop run over `ws`. -/
def GoMap.setAll {β : Type} (o : GoMap β) (ws : List (String × β)) : GoMap β :=
  ws.foldl (fun acc e => GoMap.set acc e.1 e.2) o

/-- An order in which `range` visits the entries of a map: some rearrangement
of them. -/
structure RangeOrder where
  visit : {β : Type} → GoMap β → GoMap β
  perm : ∀ {β : Type} (m : GoMap β), (visit m).Perm m

/-- The entries in the order they are stored. -/
def RangeOrder.stored : RangeOrder := ⟨fun m => m, fun m => List.Perm.refl m⟩

/-- The entries from the last stored to the first. -/
def RangeOrder.backwards : RangeOrder := ⟨fun m => m.reverse, fun m => List.reverse_perm m⟩

/-! ## `flatten` -/

/-- A value of a `map[string]interface{}`: a nested `map[string]interface{}`
(`obj`, the only case of the type switch in `flatten`), or anything else
(`leaf`).  The entries of an `obj` are listed in the order `range` visits
them. -/
inductive Value (α : Type) where
  | leaf : α → Value α
  | obj : List (String × Value α) → Value α

mutual
/-- The body of the loop of `flatten` for the key `k` and its value: the type
switch. The inner loop ranges over the flattened child in the order `r`. -/
def flattenValue {α : Type} (r : RangeOrder) (o : GoMap α) (k : String) : Value α → GoMap α
  | .leaf a => GoMap.set o k a
  | .obj child =>
    (r.visit (flattenLoop r [] child)).foldl
      (fun acc e => GoMap.set acc (k ++ "." ++ e.1) e.2) o
termination_by structural v => v
/-- One iteration of `for k, v := range m`. -/
def flattenEntry {α : Type} (r : RangeOrder) (o : GoMap α) : String × Value α → GoMap α
  | (k, v) => flattenValue r o k v
termination_by structural e => e
/-- The loop `for k, v := range m` of `flatten`, started with the output map
`o`; the entries are visited in the order they are listed. -/
def flattenLoop {α : Type} (r : RangeOrder) (o : GoMap α) : List (String × Value α) → GoMap α
  | [] => o
  | e :: rest => flattenLoop r (flattenEntry r o e) rest
termination_by structural m => m
end

/-- The function `flatten`: `o := make(map[string]interface{})`, the loop, `return o`.
The values of the result are leaves: the `default` branch stores a value that is
not a mapping, and the inner loop copies values of a flattened child. -/
def flatten {α : Type} (r : RangeOrder) (m : List (String × Value α)) : GoMap α :=
  flattenLoop r [] m

/-- The keys of a path joined with `.`, as `k + "." + nk` builds them. -/
def joinPath : List String → String
  | [] => ""
  | [k] => k
  | k :: p => k ++ "." ++ joinPath p

mutual
/-- The leaves below the value stored under `k`, each with its path of keys. -/
def leafPathsValue {α : Type} (k : String) : Value α → List (List String × α)
  | .leaf a => [([k], a)]
  | .obj child => (leafPaths child).map (fun e => (k :: e.1, e.2))
termination_by structural v => v
/-- The leaves below one entry. -/
def leafPathsEntry {α : Type} : String × Value α → List (List String × α)
  | (k, v) => leafPathsValue k v
termination_by structural e => e
/-- Every leaf of a nested mapping, with the path of keys from the root to it. -/
def leafPaths {α : Type} : List (String × Value α) → List (List String × α)
  | [] => []
  | e :: rest => leafPathsEntry e ++ leafPaths rest
termination_by structural m => m
end

mutual
/-- Keys are pairwise distinct in every mapping below a value. -/
def validValue {α : Type} : Value α → Bool
  | .leaf _ => true
  | .obj child => validMap child
termination_by structural v => v
/-- Keys are pairwise distinct in every mapping below an entry. -/
def validEntry {α : Type} : String × Value α → Bool
  | (_, v) => validValue v
termination_by structural e => e
/-- The list is a Go map at every level: no key occurs twice in one mapping. -/
def validMap {α : Type} : List (String × Value α) → Bool
  | [] => true
  | e :: rest => !(rest.any (fun e' => e'.1 = e.1)) && validEntry e && validMap rest
termination_by structural m => m
end

mutual
/-- No key below a value contains the character `.`. -/
def dotFreeValue {α : Type} : Value α → Bool
  | .leaf _ => true
  | .obj child => dotFreeMap child
termination_by structural v => v
/-- Neither the key of an entry nor a key below it contains `.`. -/
def dotFreeEntry {α : Type} : String × Value α → Bool
  | (k, v) => !(k.data.contains '.') && dotFreeValue v
termination_by structural e => e
/-- No key of the nested mapping, at any level, contains `.`. -/
def dotFreeMap {α : Type} : List (String × Value α) → Bool
  | [] => true
  | e :: rest => dotFreeEntry e && dotFreeMap rest
termination_by structural m => m
end

/-- The same nested mapping with its entries listed, at every level, in some
other order. -/
inductive Reorder {α : Type} : List (String × Value α) → List (String × Value α) → Prop
  | nil : Reorder [] []
  | leaf (k : String) (a : α) {m m' : List (String × Value α)} :
      Reorder m m' → Reorder ((k, .leaf a) :: m) ((k, .leaf a) :: m')
  | obj (k : String) {c c' m m' : List (String × Value α)} :
      Reorder c c' → Reorder m m' → Reorder ((k, .obj c) :: m) ((k, .obj c') :: m')
  | swap (e₁ e₂ : String × Value α) (m : List (String × Value α)) :
      Reorder (e₁ :: e₂ :: m) (e₂ :: e₁ :: m)
  | trans {m₁ m₂ m₃ : List (String × Value α)} :
      Reorder m₁ m₂ → Reorder m₂ m₃ → Reorder m₁ m₃

/-- The joined keys of the leaf paths of a nested mapping. -/
def joinedKeys {α : Type} (m : List (String × Value α)) : List String :=
  (leafPaths m).map (fun e => joinPath e.1)

/-- Two leaf paths of `m` never join to the same key. -/
def UniqueJoinedKeys {α : Type} (m : List (String × Value α)) : Prop :=
  (joinedKeys m).Nodup

/-- The mapping `{"a": {"b": 1}, "a.b": 2}`, visited in this order. -/
def clash : List (String × Value Nat) := [("a", .obj [("b", .leaf 1)]), ("a.b", .leaf 2)]

/-- The mapping `clash`, visited in the other order. -/
def clashSwapped : List (String × Value Nat) := [("a.b", .leaf 2), ("a", .obj [("b", .leaf 1)])]

/-! ## The NVML library -/

deriving instance DecidableEq for Except

/-- The constant `MiB`. -/
def MiB : Nat := 1048576

/-- The type `nvml.Return`, a return code. -/
abbrev Return := Int

/-- The return code `nvml.SUCCESS`. -/
def SUCCESS : Return := 0

/-- The struct `nvml.Memory`: three `uint64` byte counts. -/
structure NvmlMemory where
  Total : Nat
  Free : Nat
  Used : Nat
  deriving DecidableEq

/-- An `nvml.Device`: what the library answers to the three reads of
`newGpuInfo` on this handle. -/
structure Device where
  uuid : String × Return
  name : String × Return
  memoryInfo : NvmlMemory × Return
  deriving DecidableEq

/-- A call into the library. -/
inductive Call where
  | Init
  | Shutdown
  | DeviceGetCount
  | DeviceGetHandleByIndex (i : Nat)
  | GetUUID
  | GetName
  | GetMemoryInfo
  deriving DecidableEq

/-- The library as `NewGpuInfoList` sees it: the answers of `nvml.Init`,
`nvml.DeviceGetCount`, `nvml.DeviceGetHandleByIndex` and `nvml.ErrorString`. -/
structure Nvml where
  init : Return
  deviceGetCount : Int × Return
  deviceGetHandleByIndex : Nat → Device × Return
  errorString : Return → String

/-- The byte counts of a device fit `uint64`. -/
def Device.InRange (d : Device) : Prop :=
  d.memoryInfo.1.Total < 2 ^ 64 ∧ d.memoryInfo.1.Used < 2 ^ 64 ∧ d.memoryInfo.1.Free < 2 ^ 64

/-- The return code of the first read of the device that fails, the reads taken
in the order UUID, name, memory; `none` when the three succeed. -/
def Device.firstFailure (d : Device) : Option Return :=
  if d.uuid.2 ≠ SUCCESS then some d.uuid.2
  else if d.name.2 ≠ SUCCESS then some d.name.2
  else if d.memoryInfo.2 ≠ SUCCESS then some d.memoryInfo.2
  else none

/-! ## The inventory -/

/-- The struct `Memory`: three `uint64` counts of MiB. -/
structure Memory where
  Total : Nat
  Used : Nat
  Free : Nat
  deriving DecidableEq

/-- The struct `GpuInfo`. -/
structure GpuInfo where
  UUID : String
  Name : String
  Memory : Memory
  deriving DecidableEq

/-- The struct `GpuInfoList`. `Inner` is `none` for the nil map. The map holds
pointers to `GpuInfo`; those `newGpuInfoList` stores are never nil. -/
structure GpuInfoList where
  Inner : Option (GoMap GpuInfo)
  MemorySum : Memory
  deriving DecidableEq

/-- The function `newGpuInfo`: the result, `error` with the text of the error
when Go returns `nil, err`, and the reads made. -/
def newGpuInfo (lib : Nvml) (device : Device) : Except String GpuInfo × List Call :=
  let uuid := device.uuid.1
  let ret := device.uuid.2
  if ret ≠ SUCCESS then
    (.error (lib.errorString ret), [.GetUUID])
  else
    let name := device.name.1
    let ret := device.name.2
    if ret ≠ SUCCESS then
      (.error (lib.errorString ret), [.GetUUID, .GetName])
    else
      let memory := device.memoryInfo.1
      let ret := device.memoryInfo.2
      if ret ≠ SUCCESS then
        (.error (lib.errorString ret), [.GetUUID, .GetName, .GetMemoryInfo])
      else
        (.ok
          { UUID := uuid
            Name := name
            Memory :=
              { Total := memory.Total / MiB
                Used := memory.Used / MiB
                Free := memory.Free / MiB } },
          [.GetUUID, .GetName, .GetMemoryInfo])

/-- The first loop of `newGpuInfoList`, at index `i` with the map `inner` built
so far; `fmt.Sprint(i)` is the decimal numeral of `i`. -/
def newGpuInfoListLoop (lib : Nvml) :
    Nat → List Device → GoMap GpuInfo → Except String (GoMap GpuInfo) × List Call
  | _, [], inner => (.ok inner, [])
  | i, device :: rest, inner =>
    match newGpuInfo lib device with
    | (.error err, calls) => (.error err, calls)
    | (.ok gpuInfo, calls) =>
      let next := newGpuInfoListLoop lib (i + 1) rest (GoMap.set inner (Nat.repr i) gpuInfo)
      (next.1, calls ++ next.2)

/-- The body of the second loop of `newGpuInfoList`: three `+=` on `uint64`. -/
def addMemory (sum : Memory) (gpuInfo : GpuInfo) : Memory :=
  { Total := (sum.Total + gpuInfo.Memory.Total) % 2 ^ 64
    Used := (sum.Used + gpuInfo.Memory.Used) % 2 ^ 64
    Free := (sum.Free + gpuInfo.Memory.Free) % 2 ^ 64 }

/-- The function `newGpuInfoList`; the second loop ranges over the map `inner`
in the order `r`. -/
def newGpuInfoList (r : RangeOrder) (lib : Nvml) (devices : List Device) :
    Except String GpuInfoList × List Call :=
  match newGpuInfoListLoop lib 0 devices [] with
  | (.error err, calls) => (.error err, calls)
  | (.ok inner, calls) =>
    (.ok
      { Inner := some inner
        MemorySum := (r.visit inner).foldl (fun sum e => addMemory sum e.2) ⟨0, 0, 0⟩ },
      calls)

/-- The loop `for i := 0; i < count; i++` of `NewGpuInfoList` over the indices
still to visit, with the handles appended so far. -/
def getHandles (lib : Nvml) :
    List Nat → List Device → Except String (List Device) × List Call
  | [], devices => (.ok devices, [])
  | i :: rest, devices =>
    let device := (lib.deviceGetHandleByIndex i).1
    let ret := (lib.deviceGetHandleByIndex i).2
    if ret ≠ SUCCESS then
      (.error (lib.errorString ret), [.DeviceGetHandleByIndex i])
    else
      let next := getHandles lib rest (devices ++ [device])
      (next.1, .DeviceGetHandleByIndex i :: next.2)

/-- The statements of `NewGpuInfoList` after `defer nvml.Shutdown()`. -/
def NewGpuInfoListBody (r : RangeOrder) (lib : Nvml) : Except String GpuInfoList × List Call :=
  let count := lib.deviceGetCount.1
  let ret := lib.deviceGetCount.2
  if ret ≠ SUCCESS then
    (.error (lib.errorString ret), [.DeviceGetCount])
  else
    match getHandles lib (List.range count.toNat) [] with
    | (.error err, calls) => (.error err, .DeviceGetCount :: calls)
    | (.ok devices, calls) =>
      let res := newGpuInfoList r lib devices
      (res.1, .DeviceGetCount :: calls ++ res.2)

/-- The function `NewGpuInfoList`. The deferred `nvml.Shutdown()` is registered
once `nvml.Init` has succeeded and runs when the function returns, after the
statements that follow it. -/
def NewGpuInfoList (r : RangeOrder) (lib : Nvml) : Except String GpuInfoList × List Call :=
  let ret := lib.init
  if ret ≠ SUCCESS then
    (.error (lib.errorString ret), [.Init])
  else
    let body := NewGpuInfoListBody r lib
    (body.1, .Init :: body.2 ++ [.Shutdown])

/-! ## `ToFlatJson` -/

/-- A leaf of the tree `json.Unmarshal` builds in a `map[string]interface{}`
from the text `json.Marshal` writes for a `GpuInfoList`: `nil` for `null`, a
string, or a `float64` for a number. Every number of that text is a non-negative
integer, so the `float64` is given by its value, a natural number; a string comes
back from the text as it went in. -/
inductive JsonLeaf where
  | null
  | str (s : String)
  | num (f : Nat)
  deriving DecidableEq

/-- The number of binary digits of `n`, for `n < 2 ^ fuel`. -/
def bitLength : Nat → Nat → Nat
  | 0, _ => 0
  | fuel + 1, n => if n = 0 then 0 else bitLength fuel (n / 2) + 1

/-- The `float64` nearest to the integer `n`, ties to the even significand:
what `json.Unmarshal` stores for the numeral of `n`.  A `float64` has 53
significant bits. -/
def float64OfNat (n : Nat) : Nat :=
  if n < 2 ^ 53 then n
  else
    let e := bitLength n n - 53
    let q := n / 2 ^ e
    let rest := n % 2 ^ e
    let half := 2 ^ (e - 1)
    if rest > half ∨ (rest = half ∧ q % 2 = 1) then (q + 1) * 2 ^ e else q * 2 ^ e

/-- A multiple of `10 ^ k` next to `f` that reads back as the `float64` `f`, the
nearer of the two neighbours of `f` when both do (the even one on a tie). -/
def shortestAt (f k : Nat) : Option Nat :=
  let lo := f / 10 ^ k * 10 ^ k
  let hi := lo + 10 ^ k
  let okLo := float64OfNat lo = f
  let okHi := float64OfNat hi = f
  if okLo ∧ okHi then
    if 2 * (f - lo) < 10 ^ k then some lo
    else if 10 ^ k < 2 * (f - lo) then some hi
    else if (lo / 10 ^ k) % 2 = 0 then some lo else some hi
  else if okLo then some lo
  else if okHi then some hi
  else none

/-- The decimal with the fewest significant digits that reads back as the
`float64` `f`: the digits `strconv` produces for the precision `-1`. -/
def shortest (f : Nat) : Nat :=
  (((List.range (Nat.repr f).length).reverse).filterMap (shortestAt f)).headD f

/-- The digits of a numeral without its trailing zeros. -/
def stripZeros (ds : List Char) : List Char :=
  (ds.reverse.dropWhile (fun c => c = '0')).reverse

/-- The verb `%v` of `fmt` on a `float64` of non-negative integer value: the
format `%g` with the shortest digits, which is `%e` from the exponent 6 on and
`%f`, here without a fraction, below. -/
def formatFloat (f : Nat) : String :=
  let c := shortest f
  if c = 0 then "0"
  else
    let numeral := (Nat.repr c).data
    let digits := stripZeros numeral
    let exp := numeral.length - 1
    if exp < 6 then String.mk numeral
    else
      String.mk (digits.take 1) ++ (if 1 < digits.length then "." else "") ++
        String.mk (digits.drop 1) ++ "e+" ++ (if exp < 10 then "0" else "") ++ Nat.repr exp

/-- The call `fmt.Sprintf("%v", v)` on a leaf. -/
def sprintV : JsonLeaf → String
  | .null => "<nil>"
  | .str s => s
  | .num f => formatFloat f

/-- The tree of a `Memory`: its three fields under their JSON names. -/
def memoryTree (r : RangeOrder) (m : Memory) : Value JsonLeaf :=
  .obj (r.visit
    [("total", .leaf (.num (float64OfNat m.Total))),
     ("used", .leaf (.num (float64OfNat m.Used))),
     ("free", .leaf (.num (float64OfNat m.Free)))])

/-- The tree of a `GpuInfo`. -/
def gpuInfoTree (r : RangeOrder) (g : GpuInfo) : Value JsonLeaf :=
  .obj (r.visit
    [("uuid", .leaf (.str g.UUID)),
     ("name", .leaf (.str g.Name)),
     ("memory", memoryTree r g.Memory)])

/-- The map `result` of `ToFlatJson`: what `json.Unmarshal` builds from the
text `json.Marshal(*g)`. Neither call fails on a `GpuInfoList`, whose fields are
strings, `uint64` and maps of them. Each mapping of the tree lists its entries in
the order `r`, in which `range` will visit them. -/
def jsonTree (r : RangeOrder) (g : GpuInfoList) : List (String × Value JsonLeaf) :=
  r.visit
    [("device",
        match g.Inner with
        | none => .leaf .null
        | some inner => .obj (r.visit (inner.map (fun e => (e.1, gpuInfoTree r e.2))))),
     ("sum.memory", memoryTree r g.MemorySum)]

/-- The method `ToFlatJson`, `pfx` its argument `prefix`. -/
def ToFlatJson (r : RangeOrder) (g : GpuInfoList) (pfx : String) : Except String (GoMap String) :=
  let result := jsonTree r g
  .ok ((r.visit (flatten r result)).foldl
    (fun output e => GoMap.set output (pfx ++ "/" ++ e.1) (sprintV e.2)) [])

/-- The endings of the five keys of a device. -/
def deviceSuffixes : List String :=
  [".uuid", ".name", ".memory.total", ".memory.used", ".memory.free"]

/-- The keys the specification lists for the device of ordinal `i`:
`pfx/device.<i>.uuid`, `pfx/device.<i>.name`, `pfx/device.<i>.memory.total`,
`pfx/device.<i>.memory.used` and `pfx/device.<i>.memory.free`. -/
def deviceKeys (pfx : String) (i : Nat) : List String :=
  deviceSuffixes.map (fun s => pfx ++ "/device." ++ Nat.repr i ++ s)

/-- The keys the specification lists for the aggregate. -/
def sumKeys (pfx : String) : List String :=
  [pfx ++ "/sum.memory.total", pfx ++ "/sum.memory.used", pfx ++ "/sum.memory.free"]

/-- The keys the specification lists for an inventory of `n` devices. -/
def expectedKeys (pfx : String) (n : Nat) : List String :=
  (List.range n).flatMap (deviceKeys pfx) ++ sumKeys pfx

/-- A library whose calls all succeed, with no device. -/
def quietLib : Nvml :=
  { init := SUCCESS
    deviceGetCount := (0, SUCCESS)
    deviceGetHandleByIndex := fun _ => (⟨("", SUCCESS), ("", SUCCESS), (⟨0, 0, 0⟩, SUCCESS)⟩, SUCCESS)
    errorString := fun ret => if ret = 0 then "SUCCESS" else "ERROR_UNKNOWN" }

/-- A device with 1 TiB of memory, all of it free. -/
def tebibyteDevice : Device :=
  { uuid := ("GPU-0", SUCCESS)
    name := ("big", SUCCESS)
    memoryInfo := (⟨1099511627776, 1099511627776, 0⟩, SUCCESS) }

/-- The leaves of the tree of a `Memory` stored under the path `p`. -/
def memoryLeaves (p : List String) (m : Memory) : List (List String × JsonLeaf) :=
  [(p ++ ["total"], .num (float64OfNat m.Total)),
   (p ++ ["used"], .num (float64OfNat m.Used)),
   (p ++ ["free"], .num (float64OfNat m.Free))]

/-- The leaves of the tree of the `GpuInfo` stored under the key `k` of the
device map. -/
def gpuInfoLeaves (k : String) (g : GpuInfo) : List (List String × JsonLeaf) :=
  [(["device", k, "uuid"], .str g.UUID), (["device", k, "name"], .str g.Name)] ++
    memoryLeaves ["device", k, "memory"] g.Memory

/-- The leaves of the tree of an inventory with the device map `inner` and the
sum `sum`. -/
def inventoryLeaves (inner : GoMap GpuInfo) (sum : Memory) : List (List String × JsonLeaf) :=
  inner.flatMap (fun e => gpuInfoLeaves e.1 e.2) ++ memoryLeaves ["sum.memory"] sum

/-! ## Notions of the specification -/

/-- The device info the specification gives a device whose reads succeed: the
strings of the library and the byte counts in whole mebibytes. -/
def Device.info (d : Device) : GpuInfo :=
  { UUID := d.uuid.1
    Name := d.name.1
    Memory :=
      { Total := d.memoryInfo.1.Total / 1048576
        Used := d.memoryInfo.1.Used / 1048576
        Free := d.memoryInfo.1.Free / 1048576 } }

/-- The entries of the device inventory for the devices of ordinals `i`,
`i + 1`, ... -/
def entriesFrom : Nat → List Device → List (String × GpuInfo)
  | _, [] => []
  | i, d :: rest => (Nat.repr i, d.info) :: entriesFrom (i + 1) rest

/-- The call is a device query: the count, a handle, or one of the three reads. -/
def Call.isQuery : Call → Bool
  | .Init => false
  | .Shutdown => false
  | _ => true

/-- A device with 3 MiB of memory, one and a half used and as much free. -/
def halvedDevice : Device :=
  { uuid := ("GPU-1", SUCCESS)
    name := ("small", SUCCESS)
    memoryInfo := (⟨3145728, 1572864, 1572864⟩, SUCCESS) }

/-- A device that reports `2 ^ 64 - 1` bytes, all of them free. -/
def hugeDevice : Device :=
  { uuid := ("GPU-2", SUCCESS)
    name := ("huge", SUCCESS)
    memoryInfo := (⟨18446744073709551615, 18446744073709551615, 0⟩, SUCCESS) }

/-- A library whose initialisation fails with the return code 3. -/
def uninitialisedLib : Nvml := { quietLib with init := 3 }

/-- A device whose name cannot be read: the read returns the code 999. -/
def namelessDevice : Device := { halvedDevice with name := ("", 999) }

/-- A library with two devices; the name of the second cannot be read. -/
def twoDeviceLib : Nvml :=
  { quietLib with
    deviceGetCount := (2, SUCCESS)
    deviceGetHandleByIndex := fun i =>
      (if i = 0 then tebibyteDevice else namelessDevice, SUCCESS) }

/-- A device with 143771 MiB of memory, all of it free. -/
def largeDevice : Device :=
  { uuid := ("GPU-3", SUCCESS)
    name := ("large", SUCCESS)
    memoryInfo := (⟨150754820096, 150754820096, 0⟩, SUCCESS) }

/-- The devices of the scenario of the specification: 10240 MiB of which 2048
are used, and 8192 MiB, all free. -/
def scenarioDevices : List Device :=
  [{ uuid := ("GPU-a", SUCCESS)
     name := ("first", SUCCESS)
     memoryInfo := (⟨10737418240, 8589934592, 2147483648⟩, SUCCESS) },
   { uuid := ("GPU-b", SUCCESS)
     name := ("second", SUCCESS)
     memoryInfo := (⟨8589934592, 8589934592, 0⟩, SUCCESS) }]

/-! ## Go maps: lemmas -/

theorem GoMap.get?_set {β : Type} (o : GoMap β) (k : String) (v : β) (k' : String) :
    GoMap.get? (GoMap.set o k v) k' = if k = k' then some v else GoMap.get? o k' := by
  induction o with
  | nil => simp [GoMap.set, GoMap.get?]
  | cons e rest ih =>
    obtain ⟨k₁, v₁⟩ := e
    by_cases h : k₁ = k
    · subst h
      by_cases h' : k₁ = k' <;> simp [GoMap.set, GoMap.get?, h']
    · by_cases h' : k = k'
      · subst h'
        simp [GoMap.set, GoMap.get?, h, ih]
      · simp [GoMap.set, GoMap.get?, h, h', ih]

theorem GoMap.mem_of_get? {β : Type} {o : GoMap β} {k : String} {v : β}
    (h : GoMap.get? o k = some v) : (k, v) ∈ o := by
  induction o with
  | nil => simp [GoMap.get?] at h
  | cons e rest ih =>
    obtain ⟨k₁, v₁⟩ := e
    by_cases hk : k₁ = k
    · simp [GoMap.get?, hk] at h
      simp [hk, h]
    · simp [GoMap.get?, hk] at h
      exact List.mem_cons_of_mem _ (ih h)

theorem GoMap.get?_isSome_of_mem_keys {β : Type} {o : GoMap β} {k : String}
    (h : k ∈ GoMap.keys o) : ∃ v, GoMap.get? o k = some v := by
  induction o with
  | nil => simp [GoMap.keys] at h
  | cons e rest ih =>
    obtain ⟨k₁, v₁⟩ := e
    by_cases hk : k₁ = k
    · exact ⟨v₁, by simp [GoMap.get?, hk]⟩
    · have h' : k ∈ GoMap.keys rest := by
        simp only [GoMap.keys, List.map_cons, List.mem_cons] at h
        rcases h with h | h
        · exact absurd h.symm hk
        · exact h
      obtain ⟨v, hv⟩ := ih h'
      exact ⟨v, by simp [GoMap.get?, hk, hv]⟩

theorem GoMap.mem_keys_of_mem {β : Type} {o : GoMap β} {k : String} {v : β}
    (h : (k, v) ∈ o) : k ∈ GoMap.keys o :=
  List.mem_map.2 ⟨(k, v), h, rfl⟩

theorem GoMap.mem_set {β : Type} {o : GoMap β} {k : String} {v : β} {e : String × β}
    (h : e ∈ GoMap.set o k v) : e = (k, v) ∨ e ∈ o := by
  induction o with
  | nil => simpa [GoMap.set] using h
  | cons e₁ rest ih =>
    obtain ⟨k₁, v₁⟩ := e₁
    by_cases hk : k₁ = k
    · simp only [GoMap.set, hk, if_true, List.mem_cons] at h
      rcases h with h | h
      · exact Or.inl h
      · exact Or.inr (List.mem_cons_of_mem _ h)
    · simp only [GoMap.set, hk, if_false, List.mem_cons] at h
      rcases h with h | h
      · exact Or.inr (by simp [h])
      · rcases ih h with h | h
        · exact Or.inl h
        · exact Or.inr (List.mem_cons_of_mem _ h)

theorem GoMap.keys_set {β : Type} (o : GoMap β) (k : String) (v : β) (k' : String) :
    k' ∈ GoMap.keys (GoMap.set o k v) ↔ k' = k ∨ k' ∈ GoMap.keys o := by
  induction o with
  | nil => simp [GoMap.set, GoMap.keys]
  | cons e rest ih =>
    obtain ⟨k₁, v₁⟩ := e
    by_cases hk : k₁ = k
    · subst hk
      simp [GoMap.set, GoMap.keys]
    · simp only [GoMap.keys] at ih
      simp only [GoMap.set, hk, if_false, GoMap.keys, List.map_cons, List.mem_cons, ih]
      tauto

theorem GoMap.keys_set_nodup {β : Type} (o : GoMap β) (k : String) (v : β)
    (h : (GoMap.keys o).Nodup) : (GoMap.keys (GoMap.set o k v)).Nodup := by
  induction o with
  | nil => simp [GoMap.set, GoMap.keys]
  | cons e rest ih =>
    obtain ⟨k₁, v₁⟩ := e
    have h' : k₁ ∉ GoMap.keys rest ∧ (GoMap.keys rest).Nodup := by
      simpa [GoMap.keys] using h
    by_cases hk : k₁ = k
    · subst hk
      simpa [GoMap.set, GoMap.keys] using h
    · have hrest := ih h'.2
      have hnot : k₁ ∉ GoMap.keys (GoMap.set rest k v) := by
        rw [GoMap.keys_set]
        rintro (h1 | h1)
        · exact hk h1
        · exact h'.1 h1
      simp only [GoMap.set, hk, if_false]
      exact List.nodup_cons.2 ⟨hnot, hrest⟩

theorem GoMap.mem_setAll {β : Type} (ws : List (String × β)) (o : GoMap β) {e : String × β}
    (h : e ∈ GoMap.setAll o ws) : e ∈ ws ∨ e ∈ o := by
  induction ws generalizing o with
  | nil => exact Or.inr h
  | cons w rest ih =>
    rcases ih (GoMap.set o w.1 w.2) h with h | h
    · exact Or.inl (List.mem_cons_of_mem _ h)
    · rcases GoMap.mem_set h with h | h
      · exact Or.inl (by simp [h])
      · exact Or.inr h

theorem GoMap.keys_setAll {β : Type} (ws : List (String × β)) (o : GoMap β) (k : String) :
    k ∈ GoMap.keys (GoMap.setAll o ws) ↔ k ∈ ws.map Prod.fst ∨ k ∈ GoMap.keys o := by
  induction ws generalizing o with
  | nil => simp [GoMap.setAll]
  | cons w rest ih =>
    have := ih (GoMap.set o w.1 w.2)
    simp only [GoMap.setAll, List.foldl_cons] at this ⊢
    rw [this, GoMap.keys_set]
    simp only [List.map_cons, List.mem_cons]
    tauto

theorem GoMap.keys_setAll_nodup {β : Type} (ws : List (String × β)) (o : GoMap β)
    (h : (GoMap.keys o).Nodup) : (GoMap.keys (GoMap.setAll o ws)).Nodup := by
  induction ws generalizing o with
  | nil => exact h
  | cons w rest ih => exact ih _ (GoMap.keys_set_nodup o w.1 w.2 h)

/-! ## `flatten`: what it stores -/

theorem joinPath_cons (k : String) {p : List String} (hp : p ≠ []) :
    joinPath (k :: p) = k ++ "." ++ joinPath p := by
  cases p with
  | nil => exact absurd rfl hp
  | cons k' p' => rfl

theorem flattenValue_obj {α : Type} (r : RangeOrder) (o : GoMap α) (k : String)
    (child : List (String × Value α)) :
    flattenValue r o k (.obj child) =
      GoMap.setAll o ((r.visit (flattenLoop r [] child)).map
        (fun e => (k ++ "." ++ e.1, e.2))) := by
  simp [flattenValue, GoMap.setAll, List.foldl_map]

theorem leafPaths_cons {α : Type} (k : String) (v : Value α) (rest : List (String × Value α)) :
    leafPaths ((k, v) :: rest) = leafPathsValue k v ++ leafPaths rest := by
  simp [leafPaths, leafPathsEntry]

theorem flattenLoop_cons {α : Type} (r : RangeOrder) (o : GoMap α) (k : String) (v : Value α)
    (rest : List (String × Value α)) :
    flattenLoop r o ((k, v) :: rest) = flattenLoop r (flattenValue r o k v) rest := by
  simp [flattenLoop, flattenEntry]

theorem leafPathsValue_ne_nil {α : Type} (k : String) :
    ∀ (v : Value α) (e : List String × α), e ∈ leafPathsValue k v → e.1 ≠ []
  | .leaf a, e, h => by
    simp [leafPathsValue] at h
    simp [h]
  | .obj child, e, h => by
    simp only [leafPathsValue, List.mem_map] at h
    obtain ⟨e', _, rfl⟩ := h
    simp

theorem leafPaths_ne_nil {α : Type} :
    ∀ (m : List (String × Value α)) (e : List String × α), e ∈ leafPaths m → e.1 ≠ []
  | [], e, h => by simp [leafPaths] at h
  | (k, v) :: rest, e, h => by
    rw [leafPaths_cons, List.mem_append] at h
    rcases h with h | h
    · exact leafPathsValue_ne_nil k v e h
    · exact leafPaths_ne_nil rest e h

mutual
theorem flattenValue_mem {α : Type} (r : RangeOrder) (k : String) :
    ∀ (v : Value α) (o : GoMap α) (k' : String) (x : α), (k', x) ∈ flattenValue r o k v →
      (∃ p, (p, x) ∈ leafPathsValue k v ∧ joinPath p = k') ∨ (k', x) ∈ o
  | .leaf a, o, k', x, h => by
    simp only [flattenValue] at h
    rcases GoMap.mem_set h with h | h
    · left
      refine ⟨[k], ?_, ?_⟩
      · simp only [Prod.mk.injEq] at h
        simp [leafPathsValue, h.2]
      · simp only [Prod.mk.injEq] at h
        simp [joinPath, h.1]
    · exact Or.inr h
  | .obj child, o, k', x, h => by
    rw [flattenValue_obj] at h
    rcases GoMap.mem_setAll _ _ h with h | h
    · left
      simp only [List.mem_map] at h
      obtain ⟨⟨nk, nv⟩, hmem, heq⟩ := h
      simp only [Prod.mk.injEq] at heq
      have hmem' : (nk, nv) ∈ flattenLoop r [] child := (r.perm _).mem_iff.1 hmem
      rcases flattenLoop_mem r child [] nk nv hmem' with ⟨p, hp, hj⟩ | hbad
      · refine ⟨k :: p, ?_, ?_⟩
        · simp only [leafPathsValue, List.mem_map]
          exact ⟨(p, nv), hp, by simp [heq.2]⟩
        · rw [joinPath_cons k (leafPaths_ne_nil child _ hp), hj, heq.1]
      · simp at hbad
    · exact Or.inr h
theorem flattenLoop_mem {α : Type} (r : RangeOrder) :
    ∀ (m : List (String × Value α)) (o : GoMap α) (k' : String) (x : α),
      (k', x) ∈ flattenLoop r o m →
      (∃ p, (p, x) ∈ leafPaths m ∧ joinPath p = k') ∨ (k', x) ∈ o
  | [], o, k', x, h => by
    simp only [flattenLoop] at h
    exact Or.inr h
  | (k, v) :: rest, o, k', x, h => by
    rw [flattenLoop_cons] at h
    rcases flattenLoop_mem r rest _ k' x h with ⟨p, hp, hj⟩ | h
    · left
      exact ⟨p, by rw [leafPaths_cons]; exact List.mem_append_right _ hp, hj⟩
    · rcases flattenValue_mem r k v o k' x h with ⟨p, hp, hj⟩ | h
      · left
        exact ⟨p, by rw [leafPaths_cons]; exact List.mem_append_left _ hp, hj⟩
      · exact Or.inr h
end

mutual
theorem flattenValue_keys {α : Type} (r : RangeOrder) (k : String) :
    ∀ (v : Value α) (o : GoMap α) (k' : String),
      ((∃ p a, (p, a) ∈ leafPathsValue k v ∧ joinPath p = k') ∨ k' ∈ GoMap.keys o) →
      k' ∈ GoMap.keys (flattenValue r o k v)
  | .leaf a, o, k', h => by
    simp only [flattenValue]
    rw [GoMap.keys_set]
    rcases h with ⟨p, x, hp, hj⟩ | h
    · left
      simp only [leafPathsValue, List.mem_singleton, Prod.mk.injEq] at hp
      rw [← hj, hp.1]
      rfl
    · exact Or.inr h
  | .obj child, o, k', h => by
    rw [flattenValue_obj, GoMap.keys_setAll]
    rcases h with ⟨p, x, hp, hj⟩ | h
    · left
      simp only [leafPathsValue, List.mem_map, Prod.mk.injEq] at hp
      obtain ⟨⟨q, y⟩, hq, hpq, _⟩ := hp
      have hne : q ≠ [] := leafPaths_ne_nil child _ hq
      have hk : joinPath q ∈ GoMap.keys (flattenLoop r [] child) :=
        flattenLoop_keys r child [] (joinPath q) (Or.inl ⟨q, y, hq, rfl⟩)
      obtain ⟨z, hz⟩ := GoMap.get?_isSome_of_mem_keys hk
      have hmem : (joinPath q, z) ∈ r.visit (flattenLoop r [] child) :=
        (r.perm _).mem_iff.2 (GoMap.mem_of_get? hz)
      simp only [List.mem_map, List.map_map]
      refine ⟨(joinPath q, z), hmem, ?_⟩
      simp only [Function.comp]
      rw [← hj, ← hpq, joinPath_cons k hne]
    · exact Or.inr h
theorem flattenLoop_keys {α : Type} (r : RangeOrder) :
    ∀ (m : List (String × Value α)) (o : GoMap α) (k' : String),
      ((∃ p a, (p, a) ∈ leafPaths m ∧ joinPath p = k') ∨ k' ∈ GoMap.keys o) →
      k' ∈ GoMap.keys (flattenLoop r o m)
  | [], o, k', h => by
    simp only [flattenLoop]
    rcases h with ⟨p, x, hp, _⟩ | h
    · simp [leafPaths] at hp
    · exact h
  | (k, v) :: rest, o, k', h => by
    rw [flattenLoop_cons]
    apply flattenLoop_keys r rest
    rcases h with ⟨p, x, hp, hj⟩ | h
    · rw [leafPaths_cons, List.mem_append] at hp
      rcases hp with hp | hp
      · exact Or.inr (flattenValue_keys r k v o k' (Or.inl ⟨p, x, hp, hj⟩))
      · exact Or.inl ⟨p, x, hp, hj⟩
    · exact Or.inr (flattenValue_keys r k v o k' (Or.inr h))
end

theorem flatten_mem_keys_iff {α : Type} (r : RangeOrder) (m : List (String × Value α))
    (k : String) :
    k ∈ GoMap.keys (flatten r m) ↔ ∃ p a, (p, a) ∈ leafPaths m ∧ joinPath p = k := by
  constructor
  · intro h
    obtain ⟨v, hv⟩ := GoMap.get?_isSome_of_mem_keys h
    rcases flattenLoop_mem r m [] k v (GoMap.mem_of_get? hv) with ⟨p, hp, hj⟩ | hbad
    · exact ⟨p, v, hp, hj⟩
    · simp at hbad
  · intro h
    exact flattenLoop_keys r m [] k (Or.inl h)

theorem flatten_get?_path {α : Type} (r : RangeOrder) (m : List (String × Value α))
    (k : String) (v : α) (h : GoMap.get? (flatten r m) k = some v) :
    ∃ p, (p, v) ∈ leafPaths m ∧ joinPath p = k := by
  rcases flattenLoop_mem r m [] k v (GoMap.mem_of_get? h) with h | hbad
  · exact h
  · simp at hbad

theorem flatten_get?_of_unique {α : Type} (r : RangeOrder) (m : List (String × Value α))
    (hu : UniqueJoinedKeys m) (p : List String) (a : α) (hp : (p, a) ∈ leafPaths m) :
    GoMap.get? (flatten r m) (joinPath p) = some a := by
  have hk : joinPath p ∈ GoMap.keys (flatten r m) :=
    (flatten_mem_keys_iff r m _).2 ⟨p, a, hp, rfl⟩
  obtain ⟨v, hv⟩ := GoMap.get?_isSome_of_mem_keys hk
  obtain ⟨q, hq, hj⟩ := flatten_get?_path r m _ v hv
  have heq : (q, v) = (p, a) :=
    List.inj_on_of_nodup_map (by simpa [UniqueJoinedKeys, joinedKeys] using hu) hq hp hj
  simp only [Prod.mk.injEq] at heq
  rw [hv, heq.2]

theorem Reorder.leafPaths_perm {α : Type} {m m' : List (String × Value α)}
    (h : Reorder m m') : (leafPaths m).Perm (leafPaths m') := by
  induction h with
  | nil => exact List.Perm.refl _
  | leaf k a _ ih =>
    rw [leafPaths_cons, leafPaths_cons]
    exact List.Perm.append_left _ ih
  | obj k _ _ ihc ihm =>
    rw [leafPaths_cons, leafPaths_cons]
    simp only [leafPathsValue]
    exact List.Perm.append (ihc.map _) ihm
  | swap e₁ e₂ m =>
    obtain ⟨k₁, v₁⟩ := e₁
    obtain ⟨k₂, v₂⟩ := e₂
    simp only [leafPaths_cons, ← List.append_assoc]
    exact List.Perm.append_right _ List.perm_append_comm
  | trans _ _ ih₁ ih₂ => exact ih₁.trans ih₂

theorem Reorder.unique {α : Type} {m m' : List (String × Value α)}
    (h : Reorder m m') (hu : UniqueJoinedKeys m) : UniqueJoinedKeys m' :=
  ((h.leafPaths_perm.map _).nodup_iff).1 hu

theorem flatten_get?_transfer {α : Type} (r r' : RangeOrder) {m m' : List (String × Value α)}
    (hperm : (leafPaths m).Perm (leafPaths m')) (hu : UniqueJoinedKeys m') (k : String) (v : α)
    (hv : GoMap.get? (flatten r m) k = some v) : GoMap.get? (flatten r' m') k = some v := by
  obtain ⟨p, hp, hj⟩ := flatten_get?_path r m k v hv
  rw [← hj]
  exact flatten_get?_of_unique r' m' hu p v (hperm.mem_iff.1 hp)

/-! ## Keys without `.` -/

theorem split_at_char {α : Type} (c : α) :
    ∀ (l₁ l₂ s₁ s₂ : List α), c ∉ l₁ → c ∉ l₂ → l₁ ++ c :: s₁ = l₂ ++ c :: s₂ →
      l₁ = l₂ ∧ s₁ = s₂
  | [], [], s₁, s₂, _, _, h => by simpa using h
  | [], b :: l₂, s₁, s₂, _, h₂, h => by
    simp only [List.nil_append, List.cons_append, List.cons.injEq] at h
    exact absurd (h.1 ▸ List.mem_cons_self _ _) h₂
  | a :: l₁, [], s₁, s₂, h₁, _, h => by
    simp only [List.nil_append, List.cons_append, List.cons.injEq] at h
    exact absurd (h.1 ▸ List.mem_cons_self _ _) h₁
  | a :: l₁, b :: l₂, s₁, s₂, h₁, h₂, h => by
    simp only [List.cons_append, List.cons.injEq] at h
    have := split_at_char c l₁ l₂ s₁ s₂ (fun hc => h₁ (List.mem_cons_of_mem _ hc))
      (fun hc => h₂ (List.mem_cons_of_mem _ hc)) h.2
    simp [h.1, this.1, this.2]

theorem joinPath_inj :
    ∀ (p q : List String), p ≠ [] → q ≠ [] → (∀ k ∈ p, '.' ∉ k.data) → (∀ k ∈ q, '.' ∉ k.data) →
      joinPath p = joinPath q → p = q
  | [], _, hp, _, _, _, _ => absurd rfl hp
  | _, [], _, hq, _, _, _ => absurd rfl hq
  | [k], [k'], _, _, _, _, h => by
    simp only [joinPath] at h
    rw [h]
  | [k], k' :: k'' :: q, _, _, hp, _, h => by
    exfalso
    rw [joinPath_cons k' (by simp)] at h
    simp only [joinPath] at h
    apply hp k (List.mem_singleton.2 rfl)
    rw [h]
    simp [String.data_append]
  | k :: k'' :: p, [k'], _, _, _, hq, h => by
    exfalso
    rw [joinPath_cons k (by simp)] at h
    simp only [joinPath] at h
    apply hq k' (List.mem_singleton.2 rfl)
    rw [← h]
    simp [String.data_append]
  | k :: k₁ :: p, k' :: k₂ :: q, _, _, hp, hq, h => by
    rw [joinPath_cons k (by simp), joinPath_cons k' (by simp)] at h
    have hd := congrArg String.data h
    simp only [String.data_append, List.append_assoc] at hd
    simp only [List.singleton_append] at hd
    obtain ⟨h₁, h₂⟩ := split_at_char '.' _ _ _ _ (hp k (List.mem_cons_self _ _))
      (hq k' (List.mem_cons_self _ _)) hd
    have hk : k = k' := String.ext h₁
    have ht := joinPath_inj (k₁ :: p) (k₂ :: q) (by simp) (by simp)
      (fun x hx => hp x (List.mem_cons_of_mem _ hx))
      (fun x hx => hq x (List.mem_cons_of_mem _ hx)) (String.ext h₂)
    rw [hk, ht]

mutual
theorem dotFreeValue_paths {α : Type} (k : String) (hk : '.' ∉ k.data) :
    ∀ (v : Value α), dotFreeValue v = true →
      ∀ e ∈ leafPathsValue k v, ∀ x ∈ e.1, '.' ∉ x.data
  | .leaf a, _, e, he, x, hx => by
    simp only [leafPathsValue, List.mem_singleton] at he
    subst he
    simp only [List.mem_singleton] at hx
    rw [hx]
    exact hk
  | .obj child, h, e, he, x, hx => by
    simp only [leafPathsValue, List.mem_map] at he
    obtain ⟨e', he', rfl⟩ := he
    simp only [List.mem_cons] at hx
    rcases hx with rfl | hx
    · exact hk
    · exact dotFreeMap_paths child (by simpa [dotFreeValue] using h) e' he' x hx
theorem dotFreeMap_paths {α : Type} :
    ∀ (m : List (String × Value α)), dotFreeMap m = true →
      ∀ e ∈ leafPaths m, ∀ x ∈ e.1, '.' ∉ x.data
  | [], _, e, he, _, _ => by simp [leafPaths] at he
  | (k, v) :: rest, h, e, he, x, hx => by
    simp only [dotFreeMap, dotFreeEntry, Bool.and_eq_true, Bool.not_eq_true',
      List.contains_eq_any_beq, List.any_eq_false, beq_iff_eq] at h
    rw [leafPaths_cons, List.mem_append] at he
    rcases he with he | he
    · refine dotFreeValue_paths k ?_ v h.1.2 e he x hx
      intro hc
      exact h.1.1 '.' hc rfl
    · exact dotFreeMap_paths rest h.2 e he x hx
end

theorem leafPathsValue_head {α : Type} (k : String) (v : Value α) :
    ∀ e ∈ leafPathsValue k v, e.1.head? = some k := by
  intro e he
  cases v with
  | leaf a =>
    simp only [leafPathsValue, List.mem_singleton] at he
    rw [he]
    rfl
  | obj c =>
    simp only [leafPathsValue, List.mem_map] at he
    obtain ⟨e', _, rfl⟩ := he
    rfl

theorem leafPaths_head {α : Type} :
    ∀ (m : List (String × Value α)), ∀ e ∈ leafPaths m, ∃ k ∈ m.map Prod.fst, e.1.head? = some k
  | [], e, he => by simp [leafPaths] at he
  | (k, v) :: rest, e, he => by
    rw [leafPaths_cons, List.mem_append] at he
    rcases he with he | he
    · exact ⟨k, by simp, leafPathsValue_head k v e he⟩
    · obtain ⟨k', hk', h⟩ := leafPaths_head rest e he
      exact ⟨k', List.mem_cons_of_mem _ hk', h⟩

mutual
theorem validValue_paths_nodup {α : Type} (k : String) :
    ∀ (v : Value α), validValue v = true → ((leafPathsValue k v).map Prod.fst).Nodup
  | .leaf a, _ => by simp [leafPathsValue]
  | .obj child, h => by
    have ih := validMap_paths_nodup child (by simpa [validValue] using h)
    simp only [leafPathsValue, List.map_map]
    have : (List.map (Prod.fst ∘ fun e => (k :: e.1, e.2)) (leafPaths child)) =
        ((leafPaths child).map Prod.fst).map (fun p => k :: p) := by
      simp [List.map_map, Function.comp]
    rw [this]
    exact ih.map (fun a b hab => by simpa using hab)
theorem validMap_paths_nodup {α : Type} :
    ∀ (m : List (String × Value α)), validMap m = true → ((leafPaths m).map Prod.fst).Nodup
  | [], _ => by simp [leafPaths]
  | (k, v) :: rest, h => by
    simp only [validMap, validEntry, Bool.and_eq_true, Bool.not_eq_true', List.any_eq_false,
      decide_eq_true_eq] at h
    rw [leafPaths_cons, List.map_append, List.nodup_append]
    refine ⟨validValue_paths_nodup k v h.1.2, validMap_paths_nodup rest h.2, ?_⟩
    intro p hp hq
    obtain ⟨e, he, rfl⟩ := List.mem_map.1 hp
    obtain ⟨e', he', heq⟩ := List.mem_map.1 hq
    have h1 := leafPathsValue_head k v e he
    obtain ⟨k', hk', h2⟩ := leafPaths_head rest e' he'
    rw [heq, h1] at h2
    simp only [Option.some.injEq] at h2
    obtain ⟨x, hx, hxk⟩ := List.mem_map.1 hk'
    exact h.1.1 x hx (by rw [hxk, h2])
end

/-- A Go map none of whose keys contains `.` has no two leaf paths that join
to the same key. -/
theorem uniqueJoinedKeys_of_dotFree {α : Type} (m : List (String × Value α))
    (hv : validMap m = true) (hd : dotFreeMap m = true) : UniqueJoinedKeys m := by
  unfold UniqueJoinedKeys joinedKeys
  have hmap : (leafPaths m).map (fun e => joinPath e.1) =
      ((leafPaths m).map Prod.fst).map joinPath := by
    simp [List.map_map, Function.comp]
  rw [hmap]
  refine List.Nodup.map_on ?_ (validMap_paths_nodup m hv)
  intro p hp q hq h
  obtain ⟨e, he, rfl⟩ := List.mem_map.1 hp
  obtain ⟨e', he', rfl⟩ := List.mem_map.1 hq
  exact joinPath_inj e.1 e'.1 (leafPaths_ne_nil m e he) (leafPaths_ne_nil m e' he')
    (dotFreeMap_paths m hd e he) (dotFreeMap_paths m hd e' he') h

/-! ## The claims about `flatten` -/

/-- C1, as stated, fails on `{"a": {"b": 1}, "a.b": 2}`: the path `a`, `b` ends
in the leaf `1` and joins to `a.b`, the key under which `flatten` stores `2`;
visited in the other order the path `a.b` ends in `2` and the key stores `1`. -/
theorem flatten_clash_value :
    validMap clash = true ∧
    (["a", "b"], 1) ∈ leafPaths clash ∧ joinPath ["a", "b"] = "a.b" ∧
    GoMap.get? (flatten RangeOrder.stored clash) "a.b" = some 2 ∧
    validMap clashSwapped = true ∧
    (["a.b"], 2) ∈ leafPaths clashSwapped ∧ joinPath ["a.b"] = "a.b" ∧
    GoMap.get? (flatten RangeOrder.stored clashSwapped) "a.b" = some 1 := by
  decide

/-- C1, amended: for every nested mapping and every order of iteration, the
keys of `flatten m` are exactly the dot-joined paths to the leaves of `m`; the
value stored under a key is the leaf at the end of a path that joins to this
key; and when no two leaf paths join to the same key, the value stored under the
joined key of every path is the leaf at the end of that path. -/
theorem flatten_keys_and_values {α : Type} (r : RangeOrder) (m : List (String × Value α)) :
    (∀ k, k ∈ GoMap.keys (flatten r m) ↔ ∃ p a, (p, a) ∈ leafPaths m ∧ joinPath p = k) ∧
    (∀ k v, GoMap.get? (flatten r m) k = some v →
      ∃ p, (p, v) ∈ leafPaths m ∧ joinPath p = k) ∧
    (UniqueJoinedKeys m →
      ∀ p a, (p, a) ∈ leafPaths m → GoMap.get? (flatten r m) (joinPath p) = some a) :=
  ⟨flatten_mem_keys_iff r m, flatten_get?_path r m, fun hu p a hp =>
    flatten_get?_of_unique r m hu p a hp⟩

/-- C1 at `{"device": {"0": {"uuid": 7}}, "sum.memory": {"total": 9}}`, whose
leaf paths join to distinct keys. -/
theorem flatten_keys_and_values_witness :
    GoMap.get? (flatten RangeOrder.backwards
      [("device", Value.obj [("0", .obj [("uuid", .leaf 7)])]),
       ("sum.memory", .obj [("total", .leaf 9)])]) (joinPath ["device", "0", "uuid"]) = some 7 :=
  (flatten_keys_and_values RangeOrder.backwards
      [("device", Value.obj [("0", .obj [("uuid", .leaf 7)])]),
       ("sum.memory", .obj [("total", .leaf 9)])]).2.2 (by unfold UniqueJoinedKeys; decide)
    ["device", "0", "uuid"] 7 (by decide)

/-- C9, as stated, fails on `{"a": {"b": 1}, "a.b": 2}`: the two leaf paths
`a`, `b` and `a.b` join to the same key with different values, and the value
`flatten` returns under `a.b` is `2` in one order of the entries and `1` in the
other. -/
theorem flatten_clash_order :
    validMap clash = true ∧ Reorder clash clashSwapped ∧
    (["a", "b"], 1) ∈ leafPaths clash ∧ (["a.b"], 2) ∈ leafPaths clash ∧
    joinPath ["a", "b"] = joinPath ["a.b"] ∧
    GoMap.get? (flatten RangeOrder.stored clash) "a.b" = some 2 ∧
    GoMap.get? (flatten RangeOrder.stored clashSwapped) "a.b" = some 1 :=
  ⟨by decide, Reorder.swap _ _ _, by decide, by decide, by decide, by decide, by decide⟩

/-- C9, amended: when no two leaf paths of `m` join to the same key, `flatten`
returns the same mapping whatever the order in which the entries of `m`, of its
nested mappings and of the flattened children are visited. -/
theorem flatten_deterministic {α : Type} (r r' : RangeOrder) (m m' : List (String × Value α))
    (h : Reorder m m') (hu : UniqueJoinedKeys m) (k : String) :
    GoMap.get? (flatten r m) k = GoMap.get? (flatten r' m') k := by
  have hp := h.leafPaths_perm
  cases hv : GoMap.get? (flatten r m) k with
  | some v => exact (flatten_get?_transfer r r' hp (h.unique hu) k v hv).symm
  | none =>
    cases hv' : GoMap.get? (flatten r' m') k with
    | none => rfl
    | some v =>
      have := flatten_get?_transfer r' r hp.symm hu k v hv'
      rw [hv] at this
      cases this

/-- C9 at `{"x": {"y": 1}, "z": 2}` and the same entries in the other order. -/
theorem flatten_deterministic_witness :
    GoMap.get? (flatten RangeOrder.stored [("x", Value.obj [("y", .leaf 1)]), ("z", .leaf 2)])
        "x.y" =
      GoMap.get? (flatten RangeOrder.backwards
        [("z", .leaf 2), ("x", Value.obj [("y", .leaf 1)])]) "x.y" :=
  flatten_deterministic RangeOrder.stored RangeOrder.backwards
    [("x", Value.obj [("y", .leaf 1)]), ("z", .leaf 2)]
    [("z", .leaf 2), ("x", Value.obj [("y", .leaf 1)])]
    (Reorder.swap _ _ _) (by unfold UniqueJoinedKeys; decide) "x.y"

/-! ## `newGpuInfo` -/

theorem newGpuInfo_of_no_failure (lib : Nvml) (d : Device) (h : d.firstFailure = none) :
    newGpuInfo lib d =
      (.ok
        { UUID := d.uuid.1
          Name := d.name.1
          Memory :=
            { Total := d.memoryInfo.1.Total / 1048576
              Used := d.memoryInfo.1.Used / 1048576
              Free := d.memoryInfo.1.Free / 1048576 } },
        [.GetUUID, .GetName, .GetMemoryInfo]) := by
  unfold Device.firstFailure at h
  have h1 : d.uuid.2 = SUCCESS := by
    by_contra hc
    simp [hc] at h
  have h2 : d.name.2 = SUCCESS := by
    by_contra hc
    simp [h1, hc] at h
  have h3 : d.memoryInfo.2 = SUCCESS := by
    by_contra hc
    simp [h1, h2, hc] at h
  simp [newGpuInfo, h1, h2, h3, MiB]

theorem newGpuInfo_of_failure (lib : Nvml) (d : Device) (ret : Return)
    (h : d.firstFailure = some ret) :
    (newGpuInfo lib d).1 = .error (lib.errorString ret) := by
  unfold Device.firstFailure at h
  by_cases h1 : d.uuid.2 = SUCCESS
  · by_cases h2 : d.name.2 = SUCCESS
    · by_cases h3 : d.memoryInfo.2 = SUCCESS
      · simp [h1, h2, h3] at h
      · simp only [h1, h2, h3, ne_eq, not_true_eq_false, not_false_eq_true, if_true, if_false,
          Option.some.injEq] at h
        subst h
        simp [newGpuInfo, h1, h2, h3]
    · simp only [h1, h2, ne_eq, not_true_eq_false, not_false_eq_true, if_true, if_false,
        Option.some.injEq] at h
      subst h
      simp [newGpuInfo, h1, h2]
  · simp only [h1, ne_eq, not_false_eq_true, if_true, Option.some.injEq] at h
    subst h
    simp [newGpuInfo, h1]

theorem firstFailure_eq_none_iff (d : Device) :
    d.firstFailure = none ↔
      d.uuid.2 = SUCCESS ∧ d.name.2 = SUCCESS ∧ d.memoryInfo.2 = SUCCESS := by
  unfold Device.firstFailure
  by_cases h1 : d.uuid.2 = SUCCESS <;> by_cases h2 : d.name.2 = SUCCESS <;>
    by_cases h3 : d.memoryInfo.2 = SUCCESS <;> simp [h1, h2, h3]

/-- C6: when the three reads of a device succeed, `newGpuInfo` returns the UUID
and the name the library gave, unchanged, and the three byte counts divided by
1048576, rounded down. -/
theorem newGpuInfo_mebibytes (lib : Nvml) (d : Device)
    (huuid : d.uuid.2 = SUCCESS) (hname : d.name.2 = SUCCESS)
    (hmem : d.memoryInfo.2 = SUCCESS) (_hrange : d.InRange) :
    (newGpuInfo lib d).1 =
      .ok
        { UUID := d.uuid.1
          Name := d.name.1
          Memory :=
            { Total := d.memoryInfo.1.Total / 1048576
              Used := d.memoryInfo.1.Used / 1048576
              Free := d.memoryInfo.1.Free / 1048576 } } := by
  rw [newGpuInfo_of_no_failure lib d ((firstFailure_eq_none_iff d).2 ⟨huuid, hname, hmem⟩)]

/-- C6 at a device of 1 TiB. -/
theorem newGpuInfo_mebibytes_witness :
    (newGpuInfo quietLib tebibyteDevice).1 =
      .ok { UUID := "GPU-0", Name := "big", Memory := { Total := 1048576, Used := 0, Free := 1048576 } } :=
  newGpuInfo_mebibytes quietLib tebibyteDevice rfl rfl rfl (by unfold Device.InRange; decide)


/-- C7, as stated, fails on a device of 3 MiB with 1.5 MiB used and 1.5 MiB
free: the byte counts add up, the stored values are 3, 1 and 1. -/
theorem newGpuInfo_halved :
    halvedDevice.memoryInfo.1.Used + halvedDevice.memoryInfo.1.Free =
      halvedDevice.memoryInfo.1.Total ∧
    halvedDevice.InRange ∧
    (newGpuInfo quietLib halvedDevice).1 =
      .ok { UUID := "GPU-1", Name := "small", Memory := { Total := 3, Used := 1, Free := 1 } } ∧
    (1 : Nat) + 1 ≠ 3 := by
  unfold Device.InRange
  decide

/-- C7, amended: when the reads of a device succeed and its byte counts satisfy
`used + free = total`, the stored mebibyte values satisfy
`used + free ≤ total ≤ used + free + 1`, and `used + free = total` exactly when
the remainders of the used and the free byte counts modulo 1048576 add up to
less than 1048576. -/
theorem newGpuInfo_used_free (lib : Nvml) (d : Device)
    (huuid : d.uuid.2 = SUCCESS) (hname : d.name.2 = SUCCESS)
    (hmem : d.memoryInfo.2 = SUCCESS) (_hrange : d.InRange)
    (hsum : d.memoryInfo.1.Used + d.memoryInfo.1.Free = d.memoryInfo.1.Total) :
    ∃ g, (newGpuInfo lib d).1 = .ok g ∧
      g.Memory.Used + g.Memory.Free ≤ g.Memory.Total ∧
      g.Memory.Total ≤ g.Memory.Used + g.Memory.Free + 1 ∧
      (g.Memory.Used + g.Memory.Free = g.Memory.Total ↔
        d.memoryInfo.1.Used % 1048576 + d.memoryInfo.1.Free % 1048576 < 1048576) := by
  rw [newGpuInfo_of_no_failure lib d ((firstFailure_eq_none_iff d).2 ⟨huuid, hname, hmem⟩)]
  refine ⟨_, rfl, ?_, ?_, ?_⟩ <;> simp only <;> omega

/-- C7 at a device of 1 TiB, all of it free. -/
theorem newGpuInfo_used_free_witness :
    ∃ g, (newGpuInfo quietLib tebibyteDevice).1 = .ok g ∧
      g.Memory.Used + g.Memory.Free ≤ g.Memory.Total ∧
      g.Memory.Total ≤ g.Memory.Used + g.Memory.Free + 1 ∧
      (g.Memory.Used + g.Memory.Free = g.Memory.Total ↔
        tebibyteDevice.memoryInfo.1.Used % 1048576 +
          tebibyteDevice.memoryInfo.1.Free % 1048576 < 1048576) :=
  newGpuInfo_used_free quietLib tebibyteDevice rfl rfl rfl
    (by unfold Device.InRange; decide) (by decide)

/-! ## Decimal numerals -/

theorem digitChar_inj : ∀ a < 10, ∀ b < 10, Nat.digitChar a = Nat.digitChar b → a = b := by
  decide

theorem digitChar_ne_dot : ∀ a < 10, Nat.digitChar a ≠ '.' := by decide

theorem toDigitsCore_eq_digits :
    ∀ (fuel n : Nat) (ds : List Char), 0 < n → n < fuel →
      Nat.toDigitsCore 10 fuel n ds = ((Nat.digits 10 n).reverse.map Nat.digitChar) ++ ds
  | 0, n, ds, _, h => by omega
  | fuel + 1, n, ds, hpos, h => by
    rw [Nat.toDigitsCore]
    have hd : Nat.digits 10 n = (n % 10) :: Nat.digits 10 (n / 10) :=
      Nat.digits_def' (by decide) hpos
    by_cases h0 : n / 10 = 0
    · simp [h0, hd]
    · have hpos' : 0 < n / 10 := Nat.pos_of_ne_zero h0
      have hlt : n / 10 < fuel := by omega
      simp only [h0, if_false]
      rw [toDigitsCore_eq_digits fuel (n / 10) _ hpos' hlt, hd]
      simp

theorem repr_data_of_pos (n : Nat) (h : 0 < n) :
    (Nat.repr n).data = (Nat.digits 10 n).reverse.map Nat.digitChar := by
  simp [Nat.repr, Nat.toDigits, List.asString,
    toDigitsCore_eq_digits (n + 1) n [] h (Nat.lt_succ_self n)]

theorem repr_data_zero : (Nat.repr 0).data = ['0'] := by decide

theorem repr_data_digit (n : Nat) : ∀ c ∈ (Nat.repr n).data, ∃ d < 10, c = Nat.digitChar d := by
  intro c hc
  rcases Nat.eq_zero_or_pos n with rfl | h
  · rw [repr_data_zero] at hc
    simp at hc
    exact ⟨0, by decide, hc⟩
  · rw [repr_data_of_pos n h] at hc
    simp only [List.mem_map, List.mem_reverse] at hc
    obtain ⟨d, hd, rfl⟩ := hc
    exact ⟨d, Nat.digits_lt_base (by decide) hd, rfl⟩

theorem map_digitChar_inj :
    ∀ (l₁ l₂ : List Nat), (∀ d ∈ l₁, d < 10) → (∀ d ∈ l₂, d < 10) →
      l₁.map Nat.digitChar = l₂.map Nat.digitChar → l₁ = l₂
  | [], [], _, _, _ => rfl
  | [], _ :: _, _, _, h => by simp at h
  | _ :: _, [], _, _, h => by simp at h
  | a :: l₁, b :: l₂, h₁, h₂, h => by
    simp only [List.map_cons, List.cons.injEq] at h
    have hab : a = b :=
      digitChar_inj a (h₁ a (List.mem_cons_self _ _)) b (h₂ b (List.mem_cons_self _ _)) h.1
    have := map_digitChar_inj l₁ l₂ (fun d hd => h₁ d (List.mem_cons_of_mem _ hd))
      (fun d hd => h₂ d (List.mem_cons_of_mem _ hd)) h.2
    rw [hab, this]

theorem repr_injective : Function.Injective Nat.repr := by
  intro a b hab
  have hdata : (Nat.repr a).data = (Nat.repr b).data := by rw [hab]
  have key : ∀ n, 0 < n → (Nat.repr n).data ≠ ['0'] := by
    intro n hn h
    rw [repr_data_of_pos n hn] at h
    have hne : Nat.digits 10 n ≠ [] := Nat.digits_ne_nil_iff_ne_zero.2 (by omega)
    have hlast := Nat.getLast_digit_ne_zero 10 (m := n) (by omega)
    have hrev : (Nat.digits 10 n).reverse = [(Nat.digits 10 n).getLast hne] := by
      cases hr : (Nat.digits 10 n).reverse with
      | nil => simp at hr; exact absurd hr hne
      | cons x xs =>
        rw [hr] at h
        simp only [List.map_cons, List.cons.injEq, List.map_eq_nil_iff] at h
        have : Nat.digits 10 n = (x :: xs).reverse := by rw [← hr, List.reverse_reverse]
        simp [this, h.2]
    rw [hrev] at h
    simp only [List.map_cons, List.map_nil, List.cons.injEq, and_true] at h
    have hlt : (Nat.digits 10 n).getLast hne < 10 :=
      Nat.digits_lt_base (by decide) (List.getLast_mem hne)
    exact hlast (digitChar_inj _ hlt 0 (by decide) h)
  rcases Nat.eq_zero_or_pos a with rfl | ha
  · rcases Nat.eq_zero_or_pos b with rfl | hb
    · rfl
    · rw [repr_data_zero] at hdata
      exact absurd hdata.symm (key b hb)
  · rcases Nat.eq_zero_or_pos b with rfl | hb
    · rw [repr_data_zero] at hdata
      exact absurd hdata (key a ha)
    · rw [repr_data_of_pos a ha, repr_data_of_pos b hb] at hdata
      have hinj : (Nat.digits 10 a).reverse = (Nat.digits 10 b).reverse :=
        map_digitChar_inj _ _
          (fun d hd => Nat.digits_lt_base (by decide) (List.mem_reverse.1 hd))
          (fun d hd => Nat.digits_lt_base (by decide) (List.mem_reverse.1 hd)) hdata
      exact Nat.digits_inj_iff.1 (List.reverse_injective hinj)

/-! ## `newGpuInfoList` -/

theorem RangeOrder.visit_nil (r : RangeOrder) {β : Type} : r.visit ([] : GoMap β) = [] :=
  List.Perm.eq_nil (r.perm [])

theorem newGpuInfoListLoop_cons_ok (lib : Nvml) (i : Nat) (d : Device) (rest : List Device)
    (inner : GoMap GpuInfo) (h : d.firstFailure = none) :
    newGpuInfoListLoop lib i (d :: rest) inner =
      ((newGpuInfoListLoop lib (i + 1) rest (GoMap.set inner (Nat.repr i) d.info)).1,
        [.GetUUID, .GetName, .GetMemoryInfo] ++
          (newGpuInfoListLoop lib (i + 1) rest (GoMap.set inner (Nat.repr i) d.info)).2) := by
  rw [newGpuInfoListLoop, newGpuInfo_of_no_failure lib d h]
  rfl

theorem newGpuInfoListLoop_cons_error (lib : Nvml) (i : Nat) (d : Device) (rest : List Device)
    (inner : GoMap GpuInfo) (ret : Return) (h : d.firstFailure = some ret) :
    (newGpuInfoListLoop lib i (d :: rest) inner).1 = .error (lib.errorString ret) := by
  have h' := newGpuInfo_of_failure lib d ret h
  rw [newGpuInfoListLoop]
  cases hr : newGpuInfo lib d with
  | mk res calls =>
    rw [hr] at h'
    simp only at h'
    subst h'
    rfl

theorem newGpuInfoListLoop_ok (lib : Nvml) :
    ∀ (devices : List Device) (i : Nat) (inner : GoMap GpuInfo),
      (∀ d ∈ devices, d.firstFailure = none) →
      (newGpuInfoListLoop lib i devices inner).1 =
        .ok (GoMap.setAll inner (entriesFrom i devices))
  | [], i, inner, _ => rfl
  | d :: rest, i, inner, h => by
    rw [newGpuInfoListLoop_cons_ok lib i d rest inner (h d (List.mem_cons_self _ _))]
    simp only
    rw [newGpuInfoListLoop_ok lib rest (i + 1) _
      (fun x hx => h x (List.mem_cons_of_mem _ hx))]
    rfl

theorem newGpuInfoListLoop_error (lib : Nvml) :
    ∀ (pre : List Device) (d : Device) (post : List Device) (ret : Return) (i : Nat)
      (inner : GoMap GpuInfo),
      (∀ x ∈ pre, x.firstFailure = none) → d.firstFailure = some ret →
      (newGpuInfoListLoop lib i (pre ++ d :: post) inner).1 = .error (lib.errorString ret)
  | [], d, post, ret, i, inner, _, hd => newGpuInfoListLoop_cons_error lib i d post inner ret hd
  | x :: pre, d, post, ret, i, inner, hpre, hd => by
    rw [List.cons_append,
      newGpuInfoListLoop_cons_ok lib i x _ inner (hpre x (List.mem_cons_self _ _))]
    exact newGpuInfoListLoop_error lib pre d post ret (i + 1) _
      (fun y hy => hpre y (List.mem_cons_of_mem _ hy)) hd

theorem newGpuInfoList_fst (r : RangeOrder) (lib : Nvml) (devices : List Device) :
    (newGpuInfoList r lib devices).1 =
      match (newGpuInfoListLoop lib 0 devices []).1 with
      | .error err => .error err
      | .ok inner =>
        .ok { Inner := some inner
              MemorySum := (r.visit inner).foldl (fun sum e => addMemory sum e.2) ⟨0, 0, 0⟩ } := by
  unfold newGpuInfoList
  cases h : newGpuInfoListLoop lib 0 devices [] with
  | mk res calls => cases res <;> rfl

theorem exists_first_failure :
    ∀ (devices : List Device), (∃ d ∈ devices, d.firstFailure ≠ none) →
      ∃ pre d post ret, devices = pre ++ d :: post ∧
        (∀ x ∈ pre, x.firstFailure = none) ∧ d.firstFailure = some ret
  | [], h => by simp at h
  | x :: rest, h => by
    cases hx : x.firstFailure with
    | some ret => exact ⟨[], x, rest, ret, rfl, by simp, hx⟩
    | none =>
      have h' : ∃ d ∈ rest, d.firstFailure ≠ none := by
        obtain ⟨d, hd, hne⟩ := h
        rcases List.mem_cons.1 hd with rfl | hd
        · exact absurd hx hne
        · exact ⟨d, hd, hne⟩
      obtain ⟨pre, d, post, ret, heq, hpre, hd⟩ := exists_first_failure rest h'
      refine ⟨x :: pre, d, post, ret, by simp [heq], ?_, hd⟩
      intro y hy
      rcases List.mem_cons.1 hy with rfl | hy
      · exact hx
      · exact hpre y hy

/-- C5: `newGpuInfoList` returns an error exactly when a read of some device
fails; the error text is then the library's `ErrorString` of the return code of
the first failing read of the first failing device, and no inventory is
returned; when no read fails it returns an inventory and no error. -/
theorem newGpuInfoList_error (r : RangeOrder) (lib : Nvml) (devices : List Device) :
    ((∃ err, (newGpuInfoList r lib devices).1 = .error err) ↔
      ∃ d ∈ devices, d.uuid.2 ≠ SUCCESS ∨ d.name.2 ≠ SUCCESS ∨ d.memoryInfo.2 ≠ SUCCESS) ∧
    (∀ pre d post ret, devices = pre ++ d :: post →
      (∀ x ∈ pre, x.firstFailure = none) → d.firstFailure = some ret →
      (newGpuInfoList r lib devices).1 = .error (lib.errorString ret)) ∧
    ((∀ d ∈ devices, d.uuid.2 = SUCCESS ∧ d.name.2 = SUCCESS ∧ d.memoryInfo.2 = SUCCESS) →
      ∃ g, (newGpuInfoList r lib devices).1 = .ok g) := by
  have herr : ∀ pre d post ret, devices = pre ++ d :: post →
      (∀ x ∈ pre, x.firstFailure = none) → d.firstFailure = some ret →
      (newGpuInfoList r lib devices).1 = .error (lib.errorString ret) := by
    intro pre d post ret heq hpre hd
    rw [newGpuInfoList_fst, heq, newGpuInfoListLoop_error lib pre d post ret 0 [] hpre hd]
  have hok : (∀ d ∈ devices, d.firstFailure = none) →
      ∃ g, (newGpuInfoList r lib devices).1 = .ok g := by
    intro h
    rw [newGpuInfoList_fst, newGpuInfoListLoop_ok lib devices 0 [] h]
    exact ⟨_, rfl⟩
  refine ⟨⟨?_, ?_⟩, herr, ?_⟩
  · rintro ⟨err, he⟩
    by_contra hc
    have hall : ∀ d ∈ devices, d.firstFailure = none := by
      intro d hd
      rw [firstFailure_eq_none_iff]
      by_contra hd'
      exact hc ⟨d, hd, by tauto⟩
    obtain ⟨g, hg⟩ := hok hall
    rw [hg] at he
    cases he
  · rintro ⟨d, hd, hfail⟩
    have : ∃ d ∈ devices, d.firstFailure ≠ none := by
      refine ⟨d, hd, ?_⟩
      rw [Ne, firstFailure_eq_none_iff]
      tauto
    obtain ⟨pre, d', post, ret, heq, hpre, hd'⟩ := exists_first_failure devices this
    exact ⟨_, herr pre d' post ret heq hpre hd'⟩
  · intro h
    exact hok (fun d hd => (firstFailure_eq_none_iff d).2 (h d hd))

/-- C5 at three devices, the second of which fails the read of its name with
the code 999. -/
theorem newGpuInfoList_error_witness :
    (newGpuInfoList RangeOrder.stored quietLib [tebibyteDevice, namelessDevice, largeDevice]).1 =
      .error (quietLib.errorString 999) :=
  (newGpuInfoList_error RangeOrder.stored quietLib
    [tebibyteDevice, namelessDevice, largeDevice]).2.1
    [tebibyteDevice] namelessDevice [largeDevice] 999 rfl (by decide) (by decide)

/-- C8: on the empty list of devices `newGpuInfoList` returns, without a read
and without an error, the inventory of an empty, non-nil device map and a sum of
zeros. -/
theorem newGpuInfoList_empty (r : RangeOrder) (lib : Nvml) :
    newGpuInfoList r lib [] =
      (.ok { Inner := some [], MemorySum := { Total := 0, Used := 0, Free := 0 } }, []) := by
  simp [newGpuInfoList, newGpuInfoListLoop, RangeOrder.visit_nil]


/-! ## `NewGpuInfoList`: the calls into the library -/

theorem newGpuInfo_calls (lib : Nvml) (d : Device) :
    ∀ c ∈ (newGpuInfo lib d).2, c.isQuery = true := by
  unfold newGpuInfo
  by_cases h1 : d.uuid.2 = SUCCESS <;> by_cases h2 : d.name.2 = SUCCESS <;>
    by_cases h3 : d.memoryInfo.2 = SUCCESS <;> simp [h1, h2, h3, Call.isQuery]

theorem newGpuInfoListLoop_calls (lib : Nvml) :
    ∀ (devices : List Device) (i : Nat) (inner : GoMap GpuInfo),
      ∀ c ∈ (newGpuInfoListLoop lib i devices inner).2, c.isQuery = true
  | [], i, inner => by simp [newGpuInfoListLoop]
  | d :: rest, i, inner => by
    intro c hc
    rw [newGpuInfoListLoop] at hc
    have hd := newGpuInfo_calls lib d
    cases hr : newGpuInfo lib d with
    | mk res calls =>
      rw [hr] at hc hd
      cases res with
      | error err => exact hd c hc
      | ok gpuInfo =>
        simp only [List.mem_append] at hc
        rcases hc with hc | hc
        · exact hd c hc
        · exact newGpuInfoListLoop_calls lib rest (i + 1) _ c hc

theorem newGpuInfoList_calls (r : RangeOrder) (lib : Nvml) (devices : List Device) :
    ∀ c ∈ (newGpuInfoList r lib devices).2, c.isQuery = true := by
  intro c hc
  have hl := newGpuInfoListLoop_calls lib devices 0 []
  unfold newGpuInfoList at hc
  cases hr : newGpuInfoListLoop lib 0 devices [] with
  | mk res calls =>
    rw [hr] at hc hl
    cases res <;> exact hl c hc

theorem getHandles_calls (lib : Nvml) :
    ∀ (indices : List Nat) (devices : List Device),
      ∀ c ∈ (getHandles lib indices devices).2, c.isQuery = true
  | [], devices => by simp [getHandles]
  | i :: rest, devices => by
    intro c hc
    rw [getHandles] at hc
    by_cases h : (lib.deviceGetHandleByIndex i).2 = SUCCESS
    · simp only [h, ne_eq, not_true_eq_false, if_false, List.mem_cons] at hc
      rcases hc with rfl | hc
      · rfl
      · exact getHandles_calls lib rest _ c hc
    · simp only [h, ne_eq, not_false_eq_true, if_true, List.mem_singleton] at hc
      subst hc
      rfl

theorem NewGpuInfoListBody_calls (r : RangeOrder) (lib : Nvml) :
    ∃ rest, (NewGpuInfoListBody r lib).2 = .DeviceGetCount :: rest ∧
      ∀ c ∈ rest, c.isQuery = true := by
  unfold NewGpuInfoListBody
  by_cases h : lib.deviceGetCount.2 = SUCCESS
  · simp only [h, ne_eq, not_true_eq_false, if_false]
    have hh := getHandles_calls lib (List.range lib.deviceGetCount.1.toNat) []
    cases hr : getHandles lib (List.range lib.deviceGetCount.1.toNat) [] with
    | mk res calls =>
      rw [hr] at hh
      cases res with
      | error err => exact ⟨calls, rfl, hh⟩
      | ok devices =>
        refine ⟨calls ++ (newGpuInfoList r lib devices).2, rfl, ?_⟩
        intro c hc
        rcases List.mem_append.1 hc with hc | hc
        · exact hh c hc
        · exact newGpuInfoList_calls r lib devices c hc
  · simp only [h, ne_eq, not_false_eq_true, if_true]
    exact ⟨[], rfl, by simp⟩

/-- C10, as stated, fails when `nvml.Init` fails: `NewGpuInfoList` returns the
error after the single call `Init`, and `Shutdown` is not called. -/
theorem NewGpuInfoList_init_failure :
    NewGpuInfoList RangeOrder.stored uninitialisedLib = (.error "ERROR_UNKNOWN", [.Init]) ∧
    Call.Shutdown ∉ (NewGpuInfoList RangeOrder.stored uninitialisedLib).2 := by
  decide

/-- C10, amended: when `nvml.Init` fails, `NewGpuInfoList` returns its error
after that single call, without a query and without a shutdown; when it
succeeds, the calls are `Init`, then `DeviceGetCount` and further device
queries only, then `Shutdown` as the last call, on every return. -/
theorem NewGpuInfoList_calls (r : RangeOrder) (lib : Nvml) :
    (lib.init ≠ SUCCESS →
      NewGpuInfoList r lib = (.error (lib.errorString lib.init), [.Init])) ∧
    (lib.init = SUCCESS →
      ∃ queries, (NewGpuInfoList r lib).2 =
          .Init :: .DeviceGetCount :: queries ++ [.Shutdown] ∧
        ∀ c ∈ queries, c.isQuery = true) := by
  constructor
  · intro h
    simp [NewGpuInfoList, h]
  · intro h
    obtain ⟨rest, hrest, hq⟩ := NewGpuInfoListBody_calls r lib
    refine ⟨rest, ?_, hq⟩
    simp [NewGpuInfoList, h, hrest]

/-- C10 at a library with two devices, the second of which fails a read: the
shutdown is the last call. -/
theorem NewGpuInfoList_calls_witness :
    (NewGpuInfoList RangeOrder.stored twoDeviceLib).1 = .error "ERROR_UNKNOWN" ∧
    ∃ queries, (NewGpuInfoList RangeOrder.stored twoDeviceLib).2 =
        .Init :: .DeviceGetCount :: queries ++ [.Shutdown] ∧
      ∀ c ∈ queries, c.isQuery = true :=
  ⟨by decide, (NewGpuInfoList_calls RangeOrder.stored twoDeviceLib).2 rfl⟩


/-! ## `newGpuInfoList`: the inventory and its sum -/

theorem GoMap.set_of_not_mem {β : Type} (o : GoMap β) (k : String) (v : β)
    (h : k ∉ GoMap.keys o) : GoMap.set o k v = o ++ [(k, v)] := by
  induction o with
  | nil => rfl
  | cons e rest ih =>
    obtain ⟨k₁, v₁⟩ := e
    have h' : k₁ ≠ k ∧ k ∉ GoMap.keys rest := by
      simp only [GoMap.keys, List.map_cons, List.mem_cons, not_or] at h
      exact ⟨fun hc => h.1 hc.symm, h.2⟩
    simp [GoMap.set, h'.1, ih h'.2]

theorem GoMap.setAll_eq_append {β : Type} :
    ∀ (ws : List (String × β)) (o : GoMap β), (GoMap.keys (o ++ ws)).Nodup →
      GoMap.setAll o ws = o ++ ws
  | [], o, _ => by simp [GoMap.setAll]
  | w :: rest, o, h => by
    have hw : w.1 ∉ GoMap.keys o := by
      simp only [GoMap.keys, List.map_append, List.map_cons] at h
      have := (List.nodup_append.1 h).2.2
      intro hc
      exact this hc (List.mem_cons_self _ _) 
    have hstep : GoMap.setAll o (w :: rest) = GoMap.setAll (GoMap.set o w.1 w.2) rest := rfl
    rw [hstep, GoMap.set_of_not_mem o w.1 w.2 hw]
    rw [GoMap.setAll_eq_append rest (o ++ [(w.1, w.2)]) (by simpa using h)]
    simp

theorem keys_entriesFrom :
    ∀ (devices : List Device) (i : Nat),
      GoMap.keys (entriesFrom i devices) = (List.range' i devices.length).map Nat.repr
  | [], i => rfl
  | d :: rest, i => by
    simp [entriesFrom, GoMap.keys, List.range'] 
    exact keys_entriesFrom rest (i + 1)

theorem keys_entriesFrom_nodup (devices : List Device) (i : Nat) :
    (GoMap.keys (entriesFrom i devices)).Nodup := by
  rw [keys_entriesFrom]
  exact (List.nodup_range' i devices.length).map repr_injective

theorem values_entriesFrom :
    ∀ (devices : List Device) (i : Nat),
      (entriesFrom i devices).map Prod.snd = devices.map Device.info
  | [], i => rfl
  | d :: rest, i => by
    simp [entriesFrom, values_entriesFrom rest (i + 1)]

theorem newGpuInfoListLoop_inner (lib : Nvml) (devices : List Device)
    (h : ∀ d ∈ devices, d.firstFailure = none) :
    (newGpuInfoListLoop lib 0 devices []).1 = .ok (entriesFrom 0 devices) := by
  rw [newGpuInfoListLoop_ok lib devices 0 [] h,
    GoMap.setAll_eq_append _ [] (by simpa using keys_entriesFrom_nodup devices 0)]
  simp

theorem foldl_addMemory (l : List (String × GpuInfo)) :
    ∀ (acc : Memory), acc.Total < 2 ^ 64 → acc.Used < 2 ^ 64 → acc.Free < 2 ^ 64 →
      l.foldl (fun sum e => addMemory sum e.2) acc =
        { Total := (acc.Total + (l.map (fun e => e.2.Memory.Total)).sum) % 2 ^ 64
          Used := (acc.Used + (l.map (fun e => e.2.Memory.Used)).sum) % 2 ^ 64
          Free := (acc.Free + (l.map (fun e => e.2.Memory.Free)).sum) % 2 ^ 64 } := by
  induction l with
  | nil =>
    intro acc h₁ h₂ h₃
    cases acc
    simp only [List.foldl_nil, List.map_nil, List.sum_nil, Nat.add_zero] at h₁ h₂ h₃ ⊢
    rw [Nat.mod_eq_of_lt h₁, Nat.mod_eq_of_lt h₂, Nat.mod_eq_of_lt h₃]
  | cons e rest ih =>
    intro acc h₁ h₂ h₃
    rw [List.foldl_cons, ih (addMemory acc e.2) (Nat.mod_lt _ (by positivity))
      (Nat.mod_lt _ (by positivity)) (Nat.mod_lt _ (by positivity))]
    simp only [addMemory, List.map_cons, List.sum_cons, Nat.mod_add_mod, Nat.add_assoc]

/-- The sum the second loop computes, for every order of iteration. -/
theorem sum_visit (r : RangeOrder) (inner : GoMap GpuInfo) :
    (r.visit inner).foldl (fun sum e => addMemory sum e.2) ⟨0, 0, 0⟩ =
      { Total := ((inner.map Prod.snd).map (fun g => g.Memory.Total)).sum % 2 ^ 64
        Used := ((inner.map Prod.snd).map (fun g => g.Memory.Used)).sum % 2 ^ 64
        Free := ((inner.map Prod.snd).map (fun g => g.Memory.Free)).sum % 2 ^ 64 } := by
  rw [foldl_addMemory _ ⟨0, 0, 0⟩ (by positivity) (by positivity) (by positivity)]
  have hp := r.perm inner
  simp only [Nat.zero_add, List.map_map]
  rw [(hp.map _).sum_eq, (hp.map _).sum_eq, (hp.map _).sum_eq]
  rfl

/-- The inventory `newGpuInfoList` returns when no read fails. -/
theorem newGpuInfoList_of_no_failure (r : RangeOrder) (lib : Nvml) (devices : List Device)
    (h : ∀ d ∈ devices, d.firstFailure = none) :
    (newGpuInfoList r lib devices).1 =
      .ok
        { Inner := some (entriesFrom 0 devices)
          MemorySum :=
            { Total := (devices.map (fun d => d.memoryInfo.1.Total / 1048576)).sum % 2 ^ 64
              Used := (devices.map (fun d => d.memoryInfo.1.Used / 1048576)).sum % 2 ^ 64
              Free := (devices.map (fun d => d.memoryInfo.1.Free / 1048576)).sum % 2 ^ 64 } } := by
  rw [newGpuInfoList_fst, newGpuInfoListLoop_inner lib devices h]
  simp only [sum_visit, values_entriesFrom, List.map_map]
  rfl


theorem sum_mebibytes_le (devices : List Device) (f : NvmlMemory → Nat)
    (h : ∀ d ∈ devices, f d.memoryInfo.1 < 2 ^ 64) (hlen : devices.length ≤ 2 ^ 20) :
    (devices.map (fun d => f d.memoryInfo.1 / 1048576)).sum < 2 ^ 64 := by
  have hle : ∀ x ∈ devices.map (fun d => f d.memoryInfo.1 / 1048576), x ≤ 17592186044415 := by
    intro x hx
    obtain ⟨d, hd, rfl⟩ := List.mem_map.1 hx
    have := h d hd
    norm_num at this
    omega
  have hsum := List.sum_le_card_nsmul _ _ hle
  simp only [List.length_map, smul_eq_mul] at hsum
  norm_num at hlen ⊢
  nlinarith

theorem replicate_hugeDevice_total :
    ((List.replicate 1048577 hugeDevice).map (fun d => d.memoryInfo.1.Total / 1048576)).sum =
      18446761665894547455 := by
  rw [List.map_replicate, List.sum_replicate]
  decide

theorem replicate_hugeDevice_used :
    ((List.replicate 1048577 hugeDevice).map (fun d => d.memoryInfo.1.Used / 1048576)).sum =
      0 := by
  rw [List.map_replicate, List.sum_replicate]
  decide

theorem replicate_hugeDevice_free :
    ((List.replicate 1048577 hugeDevice).map (fun d => d.memoryInfo.1.Free / 1048576)).sum =
      18446761665894547455 := by
  rw [List.map_replicate, List.sum_replicate]
  decide

theorem replicate_hugeDevice_ok :
    ∀ d ∈ List.replicate 1048577 hugeDevice, d.firstFailure = none ∧ d.InRange := by
  intro d hd
  rw [List.eq_of_mem_replicate hd]
  unfold Device.InRange
  decide

/-- C4, as stated, fails on a list of 1048577 devices of `2 ^ 64 - 1` bytes
each, all free: every device stores 17592186044415 MiB, their sum is
18446761665894547455, above `2 ^ 64`, and the `Total` and the `Free` of the
inventory are 17592184995839. -/
theorem newGpuInfoList_sum_wraps :
    (∀ d ∈ List.replicate 1048577 hugeDevice, d.firstFailure = none ∧ d.InRange) ∧
    ((List.replicate 1048577 hugeDevice).map (fun d => d.memoryInfo.1.Total / 1048576)).sum =
      18446761665894547455 ∧
    (newGpuInfoList RangeOrder.stored quietLib (List.replicate 1048577 hugeDevice)).1 =
      .ok
        { Inner := some (entriesFrom 0 (List.replicate 1048577 hugeDevice))
          MemorySum := { Total := 17592184995839, Used := 0, Free := 17592184995839 } } := by
  refine ⟨replicate_hugeDevice_ok, replicate_hugeDevice_total, ?_⟩
  rw [newGpuInfoList_of_no_failure _ _ _ (fun d hd => (replicate_hugeDevice_ok d hd).1),
    replicate_hugeDevice_total, replicate_hugeDevice_used, replicate_hugeDevice_free]
  rfl

/-- C4, amended: for every list of devices whose reads all succeed, with byte
counts that fit `uint64`, the `Total`, `Used` and `Free` of the `MemorySum` are
the sums of the devices' MiB values modulo `2 ^ 64`; they are the sums
themselves for a list of at most `2 ^ 20` devices; and the `MemorySum` is the
same for every permutation of the list and every order of iteration over the
device map. -/
theorem newGpuInfoList_sum (r : RangeOrder) (lib : Nvml) (devices : List Device)
    (hok : ∀ d ∈ devices,
      d.uuid.2 = SUCCESS ∧ d.name.2 = SUCCESS ∧ d.memoryInfo.2 = SUCCESS)
    (hrange : ∀ d ∈ devices, d.InRange) :
    ∃ g, (newGpuInfoList r lib devices).1 = .ok g ∧
      g.MemorySum.Total = (devices.map (fun d => d.memoryInfo.1.Total / 1048576)).sum % 2 ^ 64 ∧
      g.MemorySum.Used = (devices.map (fun d => d.memoryInfo.1.Used / 1048576)).sum % 2 ^ 64 ∧
      g.MemorySum.Free = (devices.map (fun d => d.memoryInfo.1.Free / 1048576)).sum % 2 ^ 64 ∧
      (devices.length ≤ 2 ^ 20 →
        g.MemorySum.Total = (devices.map (fun d => d.memoryInfo.1.Total / 1048576)).sum ∧
        g.MemorySum.Used = (devices.map (fun d => d.memoryInfo.1.Used / 1048576)).sum ∧
        g.MemorySum.Free = (devices.map (fun d => d.memoryInfo.1.Free / 1048576)).sum) ∧
      ∀ (r' : RangeOrder) (devices' : List Device), devices'.Perm devices →
        ∃ g', (newGpuInfoList r' lib devices').1 = .ok g' ∧ g'.MemorySum = g.MemorySum := by
  have hnone : ∀ d ∈ devices, d.firstFailure = none :=
    fun d hd => (firstFailure_eq_none_iff d).2 (hok d hd)
  rw [newGpuInfoList_of_no_failure r lib devices hnone]
  refine ⟨_, rfl, rfl, rfl, rfl, ?_, ?_⟩
  · intro hlen
    simp only
    refine ⟨Nat.mod_eq_of_lt ?_, Nat.mod_eq_of_lt ?_, Nat.mod_eq_of_lt ?_⟩
    · exact sum_mebibytes_le devices (fun m => m.Total) (fun d hd => (hrange d hd).1) hlen
    · exact sum_mebibytes_le devices (fun m => m.Used) (fun d hd => (hrange d hd).2.1) hlen
    · exact sum_mebibytes_le devices (fun m => m.Free) (fun d hd => (hrange d hd).2.2) hlen
  · intro r' devices' hp
    rw [newGpuInfoList_of_no_failure r' lib devices'
      (fun d hd => hnone d (hp.mem_iff.1 hd))]
    refine ⟨_, rfl, ?_⟩
    simp only
    rw [(hp.map _).sum_eq, (hp.map _).sum_eq, (hp.map _).sum_eq]

/-- C4 at the devices of 1 TiB and of 3 MiB, in one order and the other. -/
theorem newGpuInfoList_sum_witness :
    ∃ g, (newGpuInfoList RangeOrder.backwards quietLib [tebibyteDevice, halvedDevice]).1 =
        .ok g ∧
      g.MemorySum.Total =
        ([tebibyteDevice, halvedDevice].map (fun d => d.memoryInfo.1.Total / 1048576)).sum
          % 2 ^ 64 ∧
      g.MemorySum.Used =
        ([tebibyteDevice, halvedDevice].map (fun d => d.memoryInfo.1.Used / 1048576)).sum
          % 2 ^ 64 ∧
      g.MemorySum.Free =
        ([tebibyteDevice, halvedDevice].map (fun d => d.memoryInfo.1.Free / 1048576)).sum
          % 2 ^ 64 ∧
      ([tebibyteDevice, halvedDevice].length ≤ 2 ^ 20 →
        g.MemorySum.Total =
          ([tebibyteDevice, halvedDevice].map (fun d => d.memoryInfo.1.Total / 1048576)).sum ∧
        g.MemorySum.Used =
          ([tebibyteDevice, halvedDevice].map (fun d => d.memoryInfo.1.Used / 1048576)).sum ∧
        g.MemorySum.Free =
          ([tebibyteDevice, halvedDevice].map (fun d => d.memoryInfo.1.Free / 1048576)).sum) ∧
      ∀ (r' : RangeOrder) (devices' : List Device),
        devices'.Perm [tebibyteDevice, halvedDevice] →
        ∃ g', (newGpuInfoList r' quietLib devices').1 = .ok g' ∧ g'.MemorySum = g.MemorySum :=
  newGpuInfoList_sum RangeOrder.backwards quietLib [tebibyteDevice, halvedDevice]
    (by decide) (by unfold Device.InRange; decide)


/-! ## `ToFlatJson`: the keys of the map -/

theorem mem_joinedKeys_iff {α : Type} (m : List (String × Value α)) (k : String) :
    k ∈ joinedKeys m ↔ ∃ p a, (p, a) ∈ leafPaths m ∧ joinPath p = k := by
  unfold joinedKeys
  rw [List.mem_map]
  constructor
  · rintro ⟨⟨p, a⟩, he, hj⟩
    exact ⟨p, a, he, hj⟩
  · rintro ⟨p, a, he, hj⟩
    exact ⟨(p, a), he, hj⟩

theorem flatten_keys_joined {α : Type} (r : RangeOrder) (m : List (String × Value α))
    (k : String) : k ∈ GoMap.keys (flatten r m) ↔ k ∈ joinedKeys m := by
  rw [flatten_mem_keys_iff, mem_joinedKeys_iff]

theorem leafPaths_eq_flatMap {α : Type} :
    ∀ (m : List (String × Value α)), leafPaths m = m.flatMap leafPathsEntry
  | [] => rfl
  | e :: rest => by
    rw [List.flatMap_cons, ← leafPaths_eq_flatMap rest]
    rfl

theorem ToFlatJson_eq (r : RangeOrder) (g : GpuInfoList) (pfx : String) :
    ToFlatJson r g pfx =
      .ok (GoMap.setAll [] ((r.visit (flatten r (jsonTree r g))).map
        (fun e => (pfx ++ "/" ++ e.1, sprintV e.2)))) := by
  simp [ToFlatJson, GoMap.setAll, List.foldl_map]

theorem mem_keys_ToFlatJson (r : RangeOrder) (g : GpuInfoList) (pfx : String) (k : String) :
    k ∈ GoMap.keys (GoMap.setAll [] ((r.visit (flatten r (jsonTree r g))).map
        (fun e => (pfx ++ "/" ++ e.1, sprintV e.2)))) ↔
      ∃ j ∈ joinedKeys (jsonTree r g), k = pfx ++ "/" ++ j := by
  rw [GoMap.keys_setAll]
  simp only [GoMap.keys, List.map_map, List.map_nil, List.not_mem_nil, or_false, List.mem_map,
    Function.comp]
  constructor
  · rintro ⟨e, he, rfl⟩
    have he' : e ∈ flatten r (jsonTree r g) := (r.perm _).mem_iff.1 he
    exact ⟨e.1, (flatten_keys_joined r _ _).1 (GoMap.mem_keys_of_mem he'), rfl⟩
  · rintro ⟨j, hj, rfl⟩
    obtain ⟨v, hv⟩ := GoMap.get?_isSome_of_mem_keys ((flatten_keys_joined r _ _).2 hj)
    exact ⟨(j, v), (r.perm _).mem_iff.2 (GoMap.mem_of_get? hv), rfl⟩

/-! ## The keys of the specification -/

theorem dot_not_mem_repr (n : Nat) : '.' ∉ (Nat.repr n).data := by
  intro h
  obtain ⟨d, hd, hc⟩ := repr_data_digit n '.' h
  exact digitChar_ne_dot d hd hc.symm

theorem deviceKey_inj (pfx : String) (i j : Nat) (s t : String)
    (hs : s.data.head? = some '.') (ht : t.data.head? = some '.')
    (h : pfx ++ "/device." ++ Nat.repr i ++ s = pfx ++ "/device." ++ Nat.repr j ++ t) :
    i = j ∧ s = t := by
  have hd := congrArg String.data h
  simp only [String.data_append, List.append_assoc] at hd
  have hd' := List.append_cancel_left (List.append_cancel_left hd)
  obtain ⟨s', hs'⟩ : ∃ s', s.data = '.' :: s' := by
    cases hsd : s.data with
    | nil => rw [hsd] at hs; simp at hs
    | cons c s' =>
      rw [hsd] at hs
      simp only [List.head?_cons, Option.some.injEq] at hs
      exact ⟨s', by rw [hs]⟩
  obtain ⟨t', ht'⟩ : ∃ t', t.data = '.' :: t' := by
    cases htd : t.data with
    | nil => rw [htd] at ht; simp at ht
    | cons c t' =>
      rw [htd] at ht
      simp only [List.head?_cons, Option.some.injEq] at ht
      exact ⟨t', by rw [ht]⟩
  rw [hs', ht'] at hd'
  obtain ⟨h₁, h₂⟩ := split_at_char '.' _ _ _ _ (dot_not_mem_repr i) (dot_not_mem_repr j) hd'
  refine ⟨repr_injective (String.ext h₁), String.ext ?_⟩
  rw [hs', ht', h₂]

theorem deviceSuffixes_head : ∀ s ∈ deviceSuffixes, s.data.head? = some '.' := by
  decide

theorem deviceKeys_nodup (pfx : String) (i : Nat) : (deviceKeys pfx i).Nodup := by
  unfold deviceKeys
  refine List.Nodup.map_on ?_ (by decide)
  intro s hs t ht h
  exact (deviceKey_inj pfx i i s t (deviceSuffixes_head s hs) (deviceSuffixes_head t ht) h).2

theorem deviceKeys_disjoint (pfx : String) (i j : Nat) (h : i ≠ j) :
    List.Disjoint (deviceKeys pfx i) (deviceKeys pfx j) := by
  rw [List.disjoint_left]
  intro k hi hj
  obtain ⟨s, hs, rfl⟩ := List.mem_map.1 hi
  obtain ⟨t, ht, heq⟩ := List.mem_map.1 hj
  exact h (deviceKey_inj pfx i j s t (deviceSuffixes_head s hs) (deviceSuffixes_head t ht)
    heq.symm).1

theorem sumKeys_nodup (pfx : String) : (sumKeys pfx).Nodup := by
  have hinj : ∀ a b : String, pfx ++ a = pfx ++ b → a = b := by
    intro a b h
    have hd := congrArg String.data h
    simp only [String.data_append] at hd
    exact String.ext (List.append_cancel_left hd)
  have : sumKeys pfx =
      ["/sum.memory.total", "/sum.memory.used", "/sum.memory.free"].map (fun s => pfx ++ s) := rfl
  rw [this]
  exact List.Nodup.map (fun a b h => hinj a b h) (by decide)

theorem deviceKeys_sumKeys_disjoint (pfx : String) (i : Nat) :
    List.Disjoint (deviceKeys pfx i) (sumKeys pfx) := by
  rw [List.disjoint_left]
  intro k hi hs
  obtain ⟨s, _, rfl⟩ := List.mem_map.1 hi
  simp only [sumKeys, List.mem_cons, List.mem_singleton, List.not_mem_nil, or_false] at hs
  rcases hs with h | h | h <;>
  · have hd := congrArg String.data h
    simp only [String.data_append, List.append_assoc] at hd
    have hd' := List.append_cancel_left hd
    simp at hd'

theorem expectedKeys_nodup (pfx : String) (n : Nat) : (expectedKeys pfx n).Nodup := by
  unfold expectedKeys
  rw [List.nodup_append]
  refine ⟨?_, sumKeys_nodup pfx, ?_⟩
  · rw [List.nodup_flatMap]
    refine ⟨fun i _ => deviceKeys_nodup pfx i, ?_⟩
    exact (List.nodup_range n).pairwise_of_forall_ne
      (fun i _ j _ hne => deviceKeys_disjoint pfx i j hne)
  · intro k hk hs
    obtain ⟨i, _, hi⟩ := List.mem_flatMap.1 hk
    exact deviceKeys_sumKeys_disjoint pfx i hi hs

theorem expectedKeys_length (pfx : String) (n : Nat) :
    (expectedKeys pfx n).length = 5 * n + 3 := by
  have h : ∀ m, ((List.range m).flatMap (deviceKeys pfx)).length = 5 * m := by
    intro m
    induction m with
    | zero => rfl
    | succ m ih =>
      rw [List.range_succ, List.flatMap_append, List.length_append, ih]
      simp [deviceKeys, deviceSuffixes]
      omega
  unfold expectedKeys
  rw [List.length_append, h]
  rfl

theorem joined_device_key (pfx x s : String) :
    pfx ++ "/" ++ ("device" ++ "." ++ (x ++ "." ++ s)) = pfx ++ "/device." ++ x ++ ("." ++ s) := by
  apply String.ext
  simp [String.data_append]

theorem joined_sum_key (pfx s : String) :
    pfx ++ "/" ++ ("sum.memory" ++ "." ++ s) = pfx ++ ("/sum.memory." ++ s) := by
  apply String.ext
  simp [String.data_append]

/-! ## `ToFlatJson`: the leaves of the tree -/

theorem mem_leafPaths {α : Type} (m : List (String × Value α)) (x : List String × α) :
    x ∈ leafPaths m ↔ ∃ e ∈ m, x ∈ leafPathsValue e.1 e.2 := by
  rw [leafPaths_eq_flatMap, List.mem_flatMap]
  constructor
  · rintro ⟨⟨k, v⟩, he, hx⟩
    exact ⟨(k, v), he, hx⟩
  · rintro ⟨⟨k, v⟩, he, hx⟩
    exact ⟨(k, v), he, hx⟩

theorem mem_leafPaths_visit {α : Type} (r : RangeOrder) (m : List (String × Value α))
    (x : List String × α) : x ∈ leafPaths (r.visit m) ↔ x ∈ leafPaths m := by
  rw [mem_leafPaths, mem_leafPaths]
  constructor
  · rintro ⟨e, he, hx⟩
    exact ⟨e, (r.perm m).mem_iff.1 he, hx⟩
  · rintro ⟨e, he, hx⟩
    exact ⟨e, (r.perm m).mem_iff.2 he, hx⟩

theorem mem_leafPathsValue_obj {α : Type} (r : RangeOrder) (k : String)
    (c : List (String × Value α)) (x : List String × α) :
    x ∈ leafPathsValue k (.obj (r.visit c)) ↔ ∃ y ∈ leafPaths c, x = (k :: y.1, y.2) := by
  simp only [leafPathsValue, List.mem_map, mem_leafPaths_visit]
  constructor
  · rintro ⟨y, hy, rfl⟩
    exact ⟨y, hy, rfl⟩
  · rintro ⟨y, hy, rfl⟩
    exact ⟨y, hy, rfl⟩

theorem leafPaths_nil {α : Type} : leafPaths ([] : List (String × Value α)) = [] := rfl

theorem leafPaths_leaves3 {α : Type} (k₁ k₂ k₃ : String) (a₁ a₂ a₃ : α) :
    leafPaths [(k₁, Value.leaf a₁), (k₂, .leaf a₂), (k₃, .leaf a₃)] =
      [([k₁], a₁), ([k₂], a₂), ([k₃], a₃)] := rfl

theorem mem_leafPathsValue_memoryTree (r : RangeOrder) (k : String) (m : Memory)
    (x : List String × JsonLeaf) :
    x ∈ leafPathsValue k (memoryTree r m) ↔ x ∈ memoryLeaves [k] m := by
  unfold memoryTree
  rw [mem_leafPathsValue_obj, leafPaths_leaves3]
  simp only [List.mem_cons, List.mem_singleton, List.not_mem_nil, or_false, memoryLeaves]
  constructor
  · rintro ⟨y, (rfl | rfl | rfl), rfl⟩ <;> simp
  · rintro (rfl | rfl | rfl)
    · exact ⟨_, Or.inl rfl, rfl⟩
    · exact ⟨_, Or.inr (Or.inl rfl), rfl⟩
    · exact ⟨_, Or.inr (Or.inr rfl), rfl⟩

theorem mem_leafPathsValue_gpuInfoTree (r : RangeOrder) (k : String) (g : GpuInfo)
    (x : List String × JsonLeaf) :
    x ∈ leafPathsValue k (gpuInfoTree r g) ↔
      x ∈ [([k, "uuid"], JsonLeaf.str g.UUID), ([k, "name"], .str g.Name)] ++
        memoryLeaves [k, "memory"] g.Memory := by
  unfold gpuInfoTree
  rw [mem_leafPathsValue_obj]
  simp only [leafPaths_cons, leafPaths_nil, List.append_nil, List.mem_append,
    mem_leafPathsValue_memoryTree]
  simp only [leafPathsValue, List.mem_singleton, memoryLeaves, List.mem_cons, List.not_mem_nil,
    or_false, List.singleton_append, List.cons_append, List.nil_append]
  constructor
  · rintro ⟨y, (rfl | rfl | rfl | rfl | rfl), rfl⟩ <;> simp
  · rintro ((rfl | rfl) | rfl | rfl | rfl)
    · exact ⟨_, Or.inl rfl, rfl⟩
    · exact ⟨_, Or.inr (Or.inl rfl), rfl⟩
    · exact ⟨_, Or.inr (Or.inr (Or.inl rfl)), rfl⟩
    · exact ⟨_, Or.inr (Or.inr (Or.inr (Or.inl rfl))), rfl⟩
    · exact ⟨_, Or.inr (Or.inr (Or.inr (Or.inr rfl))), rfl⟩

theorem mem_leafPaths_jsonTree (r : RangeOrder) (g : GpuInfoList) (inner : GoMap GpuInfo)
    (h : g.Inner = some inner) (x : List String × JsonLeaf) :
    x ∈ leafPaths (jsonTree r g) ↔ x ∈ inventoryLeaves inner g.MemorySum := by
  unfold jsonTree inventoryLeaves
  rw [mem_leafPaths_visit, h]
  simp only [leafPaths_cons, leafPaths_nil, List.append_nil, List.mem_append,
    mem_leafPathsValue_memoryTree, mem_leafPathsValue_obj, List.mem_flatMap]
  apply or_congr_left
  constructor
  · rintro ⟨y, hy, rfl⟩
    obtain ⟨e', he', hy'⟩ := (mem_leafPaths _ y).1 hy
    obtain ⟨e, he, rfl⟩ := List.mem_map.1 he'
    rw [mem_leafPathsValue_gpuInfoTree] at hy'
    refine ⟨e, he, ?_⟩
    simp only [memoryLeaves, gpuInfoLeaves, List.cons_append, List.nil_append, List.mem_cons,
      List.mem_singleton, List.not_mem_nil, or_false] at hy' ⊢
    rcases hy' with rfl | rfl | rfl | rfl | rfl <;> simp
  · rintro ⟨e, he, hx⟩
    have hmem : ∀ y, y ∈ leafPathsValue e.1 (gpuInfoTree r e.2) →
        y ∈ leafPaths (List.map (fun e => (e.1, gpuInfoTree r e.2)) inner) := by
      intro y hy
      exact (mem_leafPaths _ y).2 ⟨(e.1, gpuInfoTree r e.2), List.mem_map.2 ⟨e, he, rfl⟩, hy⟩
    simp only [memoryLeaves, gpuInfoLeaves, List.cons_append, List.nil_append, List.mem_cons,
      List.mem_singleton, List.not_mem_nil, or_false] at hx
    rcases hx with rfl | rfl | rfl | rfl | rfl
    · exact ⟨([e.1, "uuid"], _),
        hmem _ ((mem_leafPathsValue_gpuInfoTree r _ _ _).2 (by simp)), rfl⟩
    · exact ⟨([e.1, "name"], _),
        hmem _ ((mem_leafPathsValue_gpuInfoTree r _ _ _).2 (by simp)), rfl⟩
    · exact ⟨([e.1, "memory", "total"], _),
        hmem _ ((mem_leafPathsValue_gpuInfoTree r _ _ _).2 (by simp [memoryLeaves])), rfl⟩
    · exact ⟨([e.1, "memory", "used"], _),
        hmem _ ((mem_leafPathsValue_gpuInfoTree r _ _ _).2 (by simp [memoryLeaves])), rfl⟩
    · exact ⟨([e.1, "memory", "free"], _),
        hmem _ ((mem_leafPathsValue_gpuInfoTree r _ _ _).2 (by simp [memoryLeaves])), rfl⟩

theorem gpuInfoLeaves_keys (pfx : String) (i : Nat) (g : GpuInfo) :
    (gpuInfoLeaves (Nat.repr i) g).map (fun x => pfx ++ "/" ++ joinPath x.1) =
      deviceKeys pfx i := by
  simp only [gpuInfoLeaves, memoryLeaves, List.cons_append, List.nil_append, List.map_cons,
    List.map_nil, joinPath, deviceKeys, deviceSuffixes, joined_device_key]
  rfl

theorem memoryLeaves_sum_keys (pfx : String) (m : Memory) :
    (memoryLeaves ["sum.memory"] m).map (fun x => pfx ++ "/" ++ joinPath x.1) = sumKeys pfx := by
  simp only [memoryLeaves, List.cons_append, List.nil_append, List.map_cons, List.map_nil,
    joinPath, sumKeys, joined_sum_key]
  rfl

theorem entriesFrom_keys (pfx : String) :
    ∀ (devices : List Device) (k : Nat),
      (entriesFrom k devices).flatMap
          (fun e => (gpuInfoLeaves e.1 e.2).map (fun x => pfx ++ "/" ++ joinPath x.1)) =
        (List.range' k devices.length).flatMap (deviceKeys pfx)
  | [], k => rfl
  | d :: rest, k => by
    simp only [entriesFrom, List.flatMap_cons, List.length_cons, List.range'_succ,
      gpuInfoLeaves_keys, entriesFrom_keys pfx rest (k + 1)]

theorem inventoryLeaves_keys (pfx : String) (devices : List Device) (sum : Memory) :
    (inventoryLeaves (entriesFrom 0 devices) sum).map (fun x => pfx ++ "/" ++ joinPath x.1) =
      expectedKeys pfx devices.length := by
  unfold inventoryLeaves expectedKeys
  rw [List.map_append, List.map_flatMap, entriesFrom_keys, memoryLeaves_sum_keys,
    List.range_eq_range']

theorem inventoryLeaves_unique (devices : List Device) (sum : Memory) :
    ((inventoryLeaves (entriesFrom 0 devices) sum).map (fun x => joinPath x.1)).Nodup := by
  have h := expectedKeys_nodup "" devices.length
  rw [← inventoryLeaves_keys "" devices sum] at h
  have hmap : (inventoryLeaves (entriesFrom 0 devices) sum).map
        (fun x => "" ++ "/" ++ joinPath x.1) =
      ((inventoryLeaves (entriesFrom 0 devices) sum).map (fun x => joinPath x.1)).map
        (fun t => "" ++ "/" ++ t) := by
    rw [List.map_map]
    rfl
  rw [hmap] at h
  exact h.of_map _

theorem mem_entriesFrom :
    ∀ (devices : List Device) (k i : Nat) (d : Device), devices[i]? = some d →
      (Nat.repr (k + i), d.info) ∈ entriesFrom k devices
  | [], k, i, d, h => by simp at h
  | x :: rest, k, 0, d, h => by
    simp only [List.getElem?_cons_zero, Option.some.injEq] at h
    subst h
    exact List.mem_cons_self _ _
  | x :: rest, k, i + 1, d, h => by
    simp only [List.getElem?_cons_succ] at h
    have := mem_entriesFrom rest (k + 1) i d h
    rw [show k + (i + 1) = k + 1 + i by omega]
    exact List.mem_cons_of_mem _ this

theorem mem_inventoryLeaves_device (devices : List Device) (sum : Memory) (i : Nat)
    (d : Device) (h : devices[i]? = some d) (x : List String × JsonLeaf)
    (hx : x ∈ gpuInfoLeaves (Nat.repr i) d.info) :
    x ∈ inventoryLeaves (entriesFrom 0 devices) sum := by
  unfold inventoryLeaves
  apply List.mem_append_left
  rw [List.mem_flatMap]
  have := mem_entriesFrom devices 0 i d h
  rw [Nat.zero_add] at this
  exact ⟨_, this, hx⟩

/-! ## `ToFlatJson`: the keys of an inventory -/

theorem newGpuInfoList_ok_no_failure (r : RangeOrder) (lib : Nvml) (devices : List Device)
    (g : GpuInfoList) (h : (newGpuInfoList r lib devices).1 = .ok g) :
    ∀ d ∈ devices, d.firstFailure = none := by
  by_contra hc
  have hex : ∃ d ∈ devices, d.firstFailure ≠ none := by
    by_contra hn
    apply hc
    intro d hd
    by_contra hd'
    exact hn ⟨d, hd, hd'⟩
  obtain ⟨pre, d, post, ret, heq, hpre, hd⟩ := exists_first_failure devices hex
  rw [newGpuInfoList_fst, heq, newGpuInfoListLoop_error lib pre d post ret 0 [] hpre hd] at h
  cases h

theorem newGpuInfoList_ok_inner (r : RangeOrder) (lib : Nvml) (devices : List Device)
    (g : GpuInfoList) (h : (newGpuInfoList r lib devices).1 = .ok g) :
    g.Inner = some (entriesFrom 0 devices) := by
  rw [newGpuInfoList_of_no_failure r lib devices
    (newGpuInfoList_ok_no_failure r lib devices g h)] at h
  cases h
  rfl

theorem mem_keys_inventory (r : RangeOrder) (g : GpuInfoList) (devices : List Device)
    (hg : g.Inner = some (entriesFrom 0 devices)) (pfx : String) (k : String) :
    (∃ j ∈ joinedKeys (jsonTree r g), k = pfx ++ "/" ++ j) ↔
      k ∈ expectedKeys pfx devices.length := by
  rw [← inventoryLeaves_keys pfx devices g.MemorySum, List.mem_map]
  constructor
  · rintro ⟨j, hj, rfl⟩
    obtain ⟨p, a, hp, rfl⟩ := (mem_joinedKeys_iff _ _).1 hj
    exact ⟨(p, a), (mem_leafPaths_jsonTree r g _ hg _).1 hp, rfl⟩
  · rintro ⟨x, hx, rfl⟩
    exact ⟨joinPath x.1, (mem_joinedKeys_iff _ _).2
      ⟨x.1, x.2, (mem_leafPaths_jsonTree r g _ hg _).2 hx, rfl⟩, rfl⟩

/-- C3: for an inventory `newGpuInfoList` built from `n` devices and every
prefix `pfx`, `ToFlatJson` returns a map whose keys are exactly
`pfx/device.<i>.uuid`, `.name`, `.memory.total`, `.memory.used`, `.memory.free`
for `i < n` and `pfx/sum.memory.total`, `.used`, `.free`; the keys are pairwise
distinct, there are `5 * n + 3` of them, and each starts with `pfx` and `/`. -/
theorem ToFlatJson_keys (r r' : RangeOrder) (lib : Nvml) (devices : List Device)
    (g : GpuInfoList) (pfx : String) (h : (newGpuInfoList r' lib devices).1 = .ok g) :
    ∃ out, ToFlatJson r g pfx = .ok out ∧
      (∀ k, k ∈ GoMap.keys out ↔ k ∈ expectedKeys pfx devices.length) ∧
      (GoMap.keys out).Nodup ∧
      (GoMap.keys out).length = 5 * devices.length + 3 ∧
      ∀ k ∈ GoMap.keys out, ∃ rest, k = pfx ++ "/" ++ rest := by
  have hg := newGpuInfoList_ok_inner r' lib devices g h
  refine ⟨_, ToFlatJson_eq r g pfx, ?_, ?_, ?_, ?_⟩
  · intro k
    rw [mem_keys_ToFlatJson, mem_keys_inventory r g devices hg]
  · exact GoMap.keys_setAll_nodup _ [] List.nodup_nil
  · have hperm : (GoMap.keys (GoMap.setAll [] ((r.visit (flatten r (jsonTree r g))).map
          (fun e => (pfx ++ "/" ++ e.1, sprintV e.2))))).Perm
        (expectedKeys pfx devices.length) := by
      rw [List.perm_ext_iff_of_nodup (GoMap.keys_setAll_nodup _ [] List.nodup_nil)
        (expectedKeys_nodup pfx devices.length)]
      intro k
      rw [mem_keys_ToFlatJson, mem_keys_inventory r g devices hg]
    rw [hperm.length_eq, expectedKeys_length]
  · intro k hk
    obtain ⟨j, _, hj⟩ := (mem_keys_ToFlatJson r g pfx k).1 hk
    exact ⟨j, hj⟩

/-- C3 at the devices of 1 TiB and of 3 MiB and the prefix `prefix`. -/
theorem ToFlatJson_keys_witness :
    ∃ out,
      ToFlatJson RangeOrder.backwards
          { Inner := some (entriesFrom 0 [tebibyteDevice, halvedDevice])
            MemorySum := { Total := 1048579, Used := 1, Free := 1048577 } } "prefix" = .ok out ∧
      (∀ k, k ∈ GoMap.keys out ↔
        k ∈ expectedKeys "prefix" [tebibyteDevice, halvedDevice].length) ∧
      (GoMap.keys out).Nodup ∧
      (GoMap.keys out).length = 5 * [tebibyteDevice, halvedDevice].length + 3 ∧
      ∀ k ∈ GoMap.keys out, ∃ rest, k = "prefix" ++ "/" ++ rest :=
  ToFlatJson_keys RangeOrder.backwards RangeOrder.stored quietLib
    [tebibyteDevice, halvedDevice] _ "prefix" (by decide)

/-! ## The verb `%v` on a number -/

theorem float64OfNat_of_lt (n : Nat) (h : n < 2 ^ 53) : float64OfNat n = n := by
  unfold float64OfNat
  rw [if_pos h]

theorem shortestAt_reads_back (f k c : Nat) (h : shortestAt f k = some c) :
    float64OfNat c = f ∧ c ≤ f + 10 ^ k := by
  unfold shortestAt at h
  have hlo : f / 10 ^ k * 10 ^ k ≤ f := Nat.div_mul_le_self f (10 ^ k)
  generalize f / 10 ^ k * 10 ^ k = lo at h hlo
  generalize 10 ^ k = t at h
  by_cases h1 : float64OfNat lo = f <;> by_cases h2 : float64OfNat (lo + t) = f
  · simp only [h1, h2, and_self, if_true] at h
    split_ifs at h <;> simp only [Option.some.injEq] at h <;> subst h
    · exact ⟨h1, by omega⟩
    · exact ⟨h2, by omega⟩
    · exact ⟨h1, by omega⟩
    · exact ⟨h2, by omega⟩
  · simp only [h1, h2, and_false, if_false, if_true, Option.some.injEq] at h
    subst h
    exact ⟨h1, by omega⟩
  · simp only [h1, h2, false_and, if_false, if_true, Option.some.injEq] at h
    subst h
    exact ⟨h2, by omega⟩
  · simp [h1, h2] at h

theorem repr_length_eq (n : Nat) (h : 0 < n) :
    (Nat.repr n).length = (Nat.digits 10 n).length := by
  show (Nat.repr n).data.length = _
  rw [repr_data_of_pos n h]
  simp

theorem pow_le_of_lt_repr_length (n k : Nat) (hk : k < (Nat.repr n).length) :
    10 ^ k ≤ n + 1 := by
  rcases Nat.eq_zero_or_pos n with rfl | h
  · have : (Nat.repr 0).length = 1 := by decide
    rw [this, Nat.lt_one_iff] at hk
    subst hk
    decide
  · rw [repr_length_eq n h] at hk
    have h1 : 10 ^ (k + 1) ≤ 10 ^ (Nat.digits 10 n).length :=
      Nat.pow_le_pow_right (by decide) hk
    have h2 := Nat.base_pow_length_digits_le 10 n (by decide) (by omega)
    rw [Nat.pow_succ] at h1
    omega

theorem repr_length_le_six_iff (n : Nat) : (Nat.repr n).length ≤ 6 ↔ n < 10 ^ 6 := by
  rcases Nat.eq_zero_or_pos n with rfl | h
  · decide
  · rw [repr_length_eq n h]
    constructor
    · intro hl
      have h1 : n < 10 ^ (Nat.digits 10 n).length := Nat.lt_base_pow_length_digits (by decide)
      have h2 : 10 ^ (Nat.digits 10 n).length ≤ 10 ^ 6 := Nat.pow_le_pow_right (by decide) hl
      omega
    · intro hn
      by_contra hc
      have h1 : 10 ^ 7 ≤ 10 ^ (Nat.digits 10 n).length :=
        Nat.pow_le_pow_right (by decide) (by omega)
      have h2 := Nat.base_pow_length_digits_le 10 n (by decide) (by omega)
      norm_num at hn h1
      omega

theorem shortest_eq_self (n : Nat) (h : n < 2 ^ 52) : shortest n = n := by
  unfold shortest
  cases hl : List.filterMap (shortestAt n) (List.range (Nat.repr n).length).reverse with
  | nil => rfl
  | cons c rest =>
    have hc : c ∈ List.filterMap (shortestAt n) (List.range (Nat.repr n).length).reverse := by
      rw [hl]
      exact List.mem_cons_self _ _
    obtain ⟨k, hk, hkc⟩ := List.mem_filterMap.1 hc
    simp only [List.mem_reverse, List.mem_range] at hk
    obtain ⟨h1, h2⟩ := shortestAt_reads_back n k c hkc
    have h3 := pow_le_of_lt_repr_length n k hk
    have h4 : c < 2 ^ 53 := by
      norm_num at h ⊢
      omega
    rw [float64OfNat_of_lt c h4] at h1
    simp [h1]

theorem digitChar_ne_e : ∀ a < 10, Nat.digitChar a ≠ 'e' := by decide

theorem e_not_mem_repr (n : Nat) : 'e' ∉ (Nat.repr n).data := by
  intro h
  obtain ⟨d, hd, hc⟩ := repr_data_digit n 'e' h
  exact digitChar_ne_e d hd hc.symm

/-- The verb `%v` on the `float64` of a `uint64` below `2 ^ 52`: the decimal
numeral below 1000000, and a text with an exponent from 1000000 on. -/
theorem formatFloat_eq_repr_iff (n : Nat) (h : n < 2 ^ 52) :
    formatFloat (float64OfNat n) = Nat.repr n ↔ n < 10 ^ 6 := by
  have h53 : n < 2 ^ 53 := by
    norm_num at h ⊢
    omega
  rw [float64OfNat_of_lt n h53]
  unfold formatFloat
  simp only [shortest_eq_self n h]
  rcases Nat.eq_zero_or_pos n with rfl | hpos
  · decide
  · have hne : n ≠ 0 := by omega
    simp only [hne, if_false]
    have hlen : (Nat.repr n).data.length - 1 < 6 ↔ n < 10 ^ 6 := by
      rw [← repr_length_le_six_iff n]
      have : (Nat.repr n).length = (Nat.repr n).data.length := rfl
      have hp : 0 < (Nat.repr n).data.length := by
        rw [← this, repr_length_eq n hpos]
        exact List.length_pos.2 (Nat.digits_ne_nil_iff_ne_zero.2 hne)
      omega
    by_cases hsmall : n < 10 ^ 6
    · simp only [hlen.2 hsmall, if_true, hsmall, iff_true]
    · have hexp : ¬ (Nat.repr n).data.length - 1 < 6 := fun hc => hsmall (hlen.1 hc)
      simp only [hexp, if_false, hsmall, iff_false]
      intro heq
      have hmem : 'e' ∈ (Nat.repr n).data := by
        rw [← heq]
        simp [String.data_append]
      exact e_not_mem_repr n hmem

/-! ## `ToFlatJson`: the values -/

/-- The value `ToFlatJson` stores under the key of a leaf whose joined key is
shared only with leaves of the same value. -/
theorem ToFlatJson_get?_leaf (r : RangeOrder) (g : GpuInfoList) (pfx : String)
    (p : List String) (v : JsonLeaf) (hp : (p, v) ∈ leafPaths (jsonTree r g))
    (hu : ∀ q w, (q, w) ∈ leafPaths (jsonTree r g) → joinPath q = joinPath p → w = v) :
    GoMap.get? (GoMap.setAll [] ((r.visit (flatten r (jsonTree r g))).map
        (fun e => (pfx ++ "/" ++ e.1, sprintV e.2)))) (pfx ++ "/" ++ joinPath p) =
      some (sprintV v) := by
  have hk : pfx ++ "/" ++ joinPath p ∈ GoMap.keys (GoMap.setAll []
      ((r.visit (flatten r (jsonTree r g))).map (fun e => (pfx ++ "/" ++ e.1, sprintV e.2)))) :=
    (mem_keys_ToFlatJson r g pfx _).2
      ⟨joinPath p, (mem_joinedKeys_iff _ _).2 ⟨p, v, hp, rfl⟩, rfl⟩
  obtain ⟨s, hs⟩ := GoMap.get?_isSome_of_mem_keys hk
  rw [hs]
  rcases GoMap.mem_setAll _ _ (GoMap.mem_of_get? hs) with hmem | hmem
  · obtain ⟨e, he, heq⟩ := List.mem_map.1 hmem
    simp only [Prod.mk.injEq] at heq
    have he' : e ∈ flatten r (jsonTree r g) := (r.perm _).mem_iff.1 he
    have hkey : e.1 = joinPath p := by
      have hd := congrArg String.data heq.1
      simp only [String.data_append, List.append_assoc] at hd
      exact String.ext (List.append_cancel_left (List.append_cancel_left hd))
    rcases flattenLoop_mem r (jsonTree r g) [] e.1 e.2 he' with ⟨q, hq, hj⟩ | hbad
    · rw [← heq.2, hu q e.2 hq (hj.trans hkey)]
    · simp at hbad
  · simp at hmem

theorem inventory_get? (r : RangeOrder) (g : GpuInfoList) (devices : List Device)
    (hg : g.Inner = some (entriesFrom 0 devices)) (pfx : String) (p : List String)
    (v : JsonLeaf) (hp : (p, v) ∈ inventoryLeaves (entriesFrom 0 devices) g.MemorySum) :
    GoMap.get? (GoMap.setAll [] ((r.visit (flatten r (jsonTree r g))).map
        (fun e => (pfx ++ "/" ++ e.1, sprintV e.2)))) (pfx ++ "/" ++ joinPath p) =
      some (sprintV v) := by
  apply ToFlatJson_get?_leaf r g pfx p v ((mem_leafPaths_jsonTree r g _ hg _).2 hp)
  intro q w hq hj
  have hq' := (mem_leafPaths_jsonTree r g _ hg _).1 hq
  have := List.inj_on_of_nodup_map (inventoryLeaves_unique devices g.MemorySum) hq' hp hj
  simp only [Prod.mk.injEq] at this
  exact this.2

/-- What `ToFlatJson` stores under the memory keys of an inventory that
`newGpuInfoList` built: the text `%v` gives for the `float64` of the field. -/
theorem ToFlatJson_memory (r r' : RangeOrder) (lib : Nvml) (devices : List Device)
    (g : GpuInfoList) (pfx : String) (h : (newGpuInfoList r' lib devices).1 = .ok g) :
    ∃ out, ToFlatJson r g pfx = .ok out ∧
      (∀ i d, devices[i]? = some d →
        GoMap.get? out (pfx ++ "/device." ++ Nat.repr i ++ ".memory.total") =
          some (formatFloat (float64OfNat (d.memoryInfo.1.Total / 1048576))) ∧
        GoMap.get? out (pfx ++ "/device." ++ Nat.repr i ++ ".memory.used") =
          some (formatFloat (float64OfNat (d.memoryInfo.1.Used / 1048576))) ∧
        GoMap.get? out (pfx ++ "/device." ++ Nat.repr i ++ ".memory.free") =
          some (formatFloat (float64OfNat (d.memoryInfo.1.Free / 1048576)))) ∧
      GoMap.get? out (pfx ++ "/sum.memory.total") =
        some (formatFloat (float64OfNat g.MemorySum.Total)) ∧
      GoMap.get? out (pfx ++ "/sum.memory.used") =
        some (formatFloat (float64OfNat g.MemorySum.Used)) ∧
      GoMap.get? out (pfx ++ "/sum.memory.free") =
        some (formatFloat (float64OfNat g.MemorySum.Free)) := by
  have hg := newGpuInfoList_ok_inner r' lib devices g h
  refine ⟨_, ToFlatJson_eq r g pfx, ?_, ?_, ?_, ?_⟩
  · intro i d hd
    have hdev := fun x hx => inventory_get? r g devices hg pfx x.1 x.2
      (mem_inventoryLeaves_device devices g.MemorySum i d hd x hx)
    refine ⟨?_, ?_, ?_⟩
    · have := hdev (["device", Nat.repr i, "memory", "total"],
          JsonLeaf.num (float64OfNat (d.memoryInfo.1.Total / 1048576)))
        (by simp [gpuInfoLeaves, memoryLeaves, Device.info])
      simpa only [joinPath, joined_device_key, sprintV] using this
    · have := hdev (["device", Nat.repr i, "memory", "used"],
          JsonLeaf.num (float64OfNat (d.memoryInfo.1.Used / 1048576)))
        (by simp [gpuInfoLeaves, memoryLeaves, Device.info])
      simpa only [joinPath, joined_device_key, sprintV] using this
    · have := hdev (["device", Nat.repr i, "memory", "free"],
          JsonLeaf.num (float64OfNat (d.memoryInfo.1.Free / 1048576)))
        (by simp [gpuInfoLeaves, memoryLeaves, Device.info])
      simpa only [joinPath, joined_device_key, sprintV] using this
  · have := inventory_get? r g devices hg pfx ["sum.memory", "total"] _
      (List.mem_append_right _ (List.mem_cons_self _ _))
    simpa only [joinPath, joined_sum_key, sprintV] using this
  · have := inventory_get? r g devices hg pfx ["sum.memory", "used"] _
      (List.mem_append_right _ (List.mem_cons_of_mem _ (List.mem_cons_self _ _)))
    simpa only [joinPath, joined_sum_key, sprintV] using this
  · have := inventory_get? r g devices hg pfx ["sum.memory", "free"] _
      (List.mem_append_right _
        (List.mem_cons_of_mem _ (List.mem_cons_of_mem _ (List.mem_cons_self _ _))))
    simpa only [joinPath, joined_sum_key, sprintV] using this

theorem mebibytes_lt (n : Nat) (h : n < 2 ^ 64) : n / 1048576 < 2 ^ 52 := by
  norm_num at h ⊢
  omega

/-- The memory values of the flattened map and the decimal numerals: the value
under a memory key is the decimal numeral of the field exactly when the field is
below 1000000 (for the sum, as long as it is below `2 ^ 52`). -/
theorem ToFlatJson_memory_decimal (r r' : RangeOrder) (lib : Nvml) (devices : List Device)
    (g : GpuInfoList) (pfx : String) (h : (newGpuInfoList r' lib devices).1 = .ok g) :
    ∃ out, ToFlatJson r g pfx = .ok out ∧
      (∀ i d, devices[i]? = some d → d.InRange →
        (GoMap.get? out (pfx ++ "/device." ++ Nat.repr i ++ ".memory.total") =
            some (Nat.repr (d.memoryInfo.1.Total / 1048576)) ↔
          d.memoryInfo.1.Total / 1048576 < 10 ^ 6) ∧
        (GoMap.get? out (pfx ++ "/device." ++ Nat.repr i ++ ".memory.used") =
            some (Nat.repr (d.memoryInfo.1.Used / 1048576)) ↔
          d.memoryInfo.1.Used / 1048576 < 10 ^ 6) ∧
        (GoMap.get? out (pfx ++ "/device." ++ Nat.repr i ++ ".memory.free") =
            some (Nat.repr (d.memoryInfo.1.Free / 1048576)) ↔
          d.memoryInfo.1.Free / 1048576 < 10 ^ 6)) ∧
      (g.MemorySum.Total < 2 ^ 52 →
        (GoMap.get? out (pfx ++ "/sum.memory.total") = some (Nat.repr g.MemorySum.Total) ↔
          g.MemorySum.Total < 10 ^ 6)) ∧
      (g.MemorySum.Used < 2 ^ 52 →
        (GoMap.get? out (pfx ++ "/sum.memory.used") = some (Nat.repr g.MemorySum.Used) ↔
          g.MemorySum.Used < 10 ^ 6)) ∧
      (g.MemorySum.Free < 2 ^ 52 →
        (GoMap.get? out (pfx ++ "/sum.memory.free") = some (Nat.repr g.MemorySum.Free) ↔
          g.MemorySum.Free < 10 ^ 6)) := by
  obtain ⟨out, hout, hdev, ht, hu, hf⟩ := ToFlatJson_memory r r' lib devices g pfx h
  refine ⟨out, hout, ?_, ?_, ?_, ?_⟩
  · intro i d hd hr
    obtain ⟨h1, h2, h3⟩ := hdev i d hd
    rw [h1, h2, h3]
    simp only [Option.some.injEq]
    exact ⟨formatFloat_eq_repr_iff _ (mebibytes_lt _ hr.1),
      formatFloat_eq_repr_iff _ (mebibytes_lt _ hr.2.1),
      formatFloat_eq_repr_iff _ (mebibytes_lt _ hr.2.2)⟩
  · intro hb
    rw [ht, Option.some.injEq]
    exact formatFloat_eq_repr_iff _ hb
  · intro hb
    rw [hu, Option.some.injEq]
    exact formatFloat_eq_repr_iff _ hb
  · intro hb
    rw [hf, Option.some.injEq]
    exact formatFloat_eq_repr_iff _ hb

/-- The scenario of the specification: the sum is 18432, 2048 and 16384, and
the flattened map holds `10240` under `prefix/device.0.memory.total` and `2048`
under `prefix/sum.memory.used`. -/
theorem ToFlatJson_scenario :
    ∃ g out, (newGpuInfoList RangeOrder.stored quietLib scenarioDevices).1 = .ok g ∧
      g.MemorySum = { Total := 18432, Used := 2048, Free := 16384 } ∧
      ToFlatJson RangeOrder.stored g "prefix" = .ok out ∧
      GoMap.get? out "prefix/device.0.memory.total" = some "10240" ∧
      GoMap.get? out "prefix/sum.memory.used" = some "2048" :=
  ⟨_, _, rfl, by decide, rfl, by decide, by decide⟩

/-- C2 fails on eight devices of 143771 MiB each: the `Total` of the sum is
1150168, and the value under `prefix/sum.memory.total` is `1.150168e+06`, not
the decimal numeral `1150168`; on one device of 1 TiB the value under
`prefix/device.0.memory.total` is `1.048576e+06`. -/
theorem ToFlatJson_exponent :
    (∃ g out,
      (newGpuInfoList RangeOrder.stored quietLib (List.replicate 8 largeDevice)).1 = .ok g ∧
      g.MemorySum.Total = 1150168 ∧
      ToFlatJson RangeOrder.stored g "prefix" = .ok out ∧
      GoMap.get? out "prefix/device.7.memory.total" = some "143771" ∧
      GoMap.get? out "prefix/sum.memory.total" = some "1.150168e+06" ∧
      Nat.repr 1150168 = "1150168") ∧
    (∃ g out,
      (newGpuInfoList RangeOrder.stored quietLib [tebibyteDevice]).1 = .ok g ∧
      g.MemorySum.Total = 1048576 ∧
      ToFlatJson RangeOrder.stored g "prefix" = .ok out ∧
      GoMap.get? out "prefix/device.0.memory.total" = some "1.048576e+06" ∧
      Nat.repr 1048576 = "1048576") :=
  ⟨⟨_, _, rfl, by decide, rfl, by decide, by decide, by decide⟩,
    ⟨_, _, rfl, by decide, rfl, by decide, by decide⟩⟩

end Gpu
